import Mathlib

/-!
Verification of the `xgendoc.py` documentation-build script of the gofem
repository, against its natural-language specification.

The script is embedded shallowly:

* Pure string manipulation (headers, footers, package items, the
  `replace("/","-")` flat-name derivation, the `sed` substitution and the
  Python `strip()` call) is embedded as executable functions on `String`
  and `List Char`.
* The effectful main run (lines 91-108 of the source) is embedded as a
  trace of file operations (`create` for `echo ... >`, `append` for
  `echo ... >>` and `godoc ... >>`, `sedFix` for `sed -i`), interpreted
  over a file system modelled as `String → Option String`.  The external
  `godoc` tool is an oracle `String → String` from the spawned command
  line to its standard output.  Shell double-quote unescaping of the
  `echo` arguments is applied in the embedded string constants (so `\"`
  in the Python source appears as `"` here); the embedding assumes the
  interpolated license and tool output contain no shell metacharacters.
* `Cmd` (lines 9-20) is embedded with a subprocess oracle
  `String → ProcOut`; its `debug` branch evaluates the undefined name
  `cmd` and is modelled as a Python `NameError`.
-/

set_option maxRecDepth 100000
set_option maxHeartbeats 4000000

namespace Xgendoc

/-- Boolean test: `p` is a prefix of `s` (on character lists). -/
def leadsB : List Char → List Char → Bool
  | [], _ => true
  | _ :: _, [] => false
  | p :: ps, c :: cs => p == c && leadsB ps cs

/-- Number of positions of `s` at which the pattern `p` matches
(for nonempty `p`; positions run over the proper suffixes of `s`). -/
def countSub (p : List Char) : List Char → Nat
  | [] => if p = [] then 1 else 0
  | c :: cs => (if leadsB p (c :: cs) then 1 else 0) + countSub p cs

/-- Boolean test: `p` occurs somewhere inside `s` as a contiguous block. -/
def hasSubB (p : List Char) : List Char → Bool
  | [] => p == []
  | c :: cs => leadsB p (c :: cs) || hasSubB p cs

theorem leadsB_iff (p s : List Char) : leadsB p s = true ↔ ∃ t, s = p ++ t := by
  induction p generalizing s with
  | nil => exact ⟨fun _ => ⟨s, rfl⟩, fun _ => rfl⟩
  | cons a ps ih =>
    cases s with
    | nil => simp [leadsB]
    | cons c cs =>
      simp only [leadsB, Bool.and_eq_true, beq_iff_eq, ih, List.cons_append]
      constructor
      · rintro ⟨rfl, t, rfl⟩; exact ⟨t, rfl⟩
      · rintro ⟨t, h⟩
        cases h
        exact ⟨rfl, t, rfl⟩

theorem leadsB_length_le {p s : List Char} (h : leadsB p s = true) :
    p.length ≤ s.length := by
  rcases (leadsB_iff p s).1 h with ⟨t, rfl⟩
  simp

theorem leadsB_of_short {p s : List Char} (h : s.length < p.length) :
    leadsB p s = false := by
  by_contra hne
  have := leadsB_length_le (p := p) (s := s) (by simpa using Bool.of_not_eq_false hne)
  omega

theorem leadsB_append_left {p : List Char} (x y : List Char)
    (h : p.length ≤ x.length) : leadsB p (x ++ y) = leadsB p x := by
  induction p generalizing x with
  | nil => simp [leadsB]
  | cons a ps ih =>
    cases x with
    | nil => simp at h
    | cons c cs =>
      have hle : ps.length ≤ cs.length := by simp at h; omega
      simp only [List.cons_append, leadsB, List.append_eq]
      rw [ih cs hle]

theorem leadsB_append_cases {p x y : List Char} (h : leadsB p (x ++ y) = true) :
    leadsB p x = true ∨ (leadsB x p = true ∧ leadsB (p.drop x.length) y = true) := by
  induction x generalizing p with
  | nil => exact Or.inr ⟨rfl, by simpa using h⟩
  | cons c cs ih =>
    cases p with
    | nil => exact Or.inl rfl
    | cons a ps =>
      simp only [List.cons_append, leadsB, Bool.and_eq_true, beq_iff_eq] at h
      rcases h with ⟨rfl, h2⟩
      rcases ih h2 with h3 | ⟨h3, h4⟩
      · exact Or.inl (by simp [leadsB, h3])
      · refine Or.inr ⟨by simp [leadsB, h3], ?_⟩
        simpa using h4

theorem leadsB_self_append (p t : List Char) : leadsB p (p ++ t) = true := by
  rw [leadsB_iff]; exact ⟨t, rfl⟩

theorem leadsB_mem {p s : List Char} (h : leadsB p s = true) {c : Char}
    (hc : c ∈ p) : c ∈ s := by
  rcases (leadsB_iff p s).1 h with ⟨t, rfl⟩
  exact List.mem_append.mpr (Or.inl hc)

theorem leadsB_trans {a b c : List Char} (h1 : leadsB a b = true)
    (h2 : leadsB b c = true) : leadsB a c = true := by
  rcases (leadsB_iff a b).1 h1 with ⟨t, rfl⟩
  rcases (leadsB_iff _ c).1 h2 with ⟨u, rfl⟩
  rw [leadsB_iff]; exact ⟨t ++ u, by simp⟩

theorem leadsB_long_split {q a b : List Char} (h : leadsB q (a ++ b) = true)
    (hlen : a.length ≤ q.length) : leadsB a q = true := by
  induction a generalizing q b with
  | nil => rfl
  | cons c cs ih =>
    cases q with
    | nil => simp at hlen
    | cons d ds =>
      simp only [List.cons_append, leadsB, Bool.and_eq_true, beq_iff_eq] at h ⊢
      rcases h with ⟨hdc, h2⟩
      subst hdc
      exact ⟨rfl, ih h2 (by simpa using hlen)⟩

theorem hasSubB_iff (p s : List Char) :
    hasSubB p s = true ↔ ∃ a b, s = a ++ p ++ b := by
  induction s with
  | nil =>
    simp only [hasSubB, beq_iff_eq]
    constructor
    · rintro rfl; exact ⟨[], [], rfl⟩
    · rintro ⟨a, b, h⟩
      rcases List.append_eq_nil.mp ((List.append_eq_nil.mp h.symm).1) with ⟨_, h2⟩
      exact h2
  | cons c cs ih =>
    simp only [hasSubB, Bool.or_eq_true, leadsB_iff, ih]
    constructor
    · rintro (⟨t, h⟩ | ⟨a, b, h⟩)
      · exact ⟨[], t, by simpa using h⟩
      · exact ⟨c :: a, b, by simp [h]⟩
    · rintro ⟨a, b, h⟩
      cases a with
      | nil => exact Or.inl ⟨b, by simpa using h⟩
      | cons a0 as =>
        simp only [List.cons_append, List.cons.injEq] at h
        exact Or.inr ⟨as, b, h.2⟩

theorem countSub_zero_iff (p s : List Char) :
    countSub p s = 0 ↔ hasSubB p s = false := by
  induction s with
  | nil =>
    by_cases h : p = [] <;> simp [countSub, hasSubB, h]
  | cons c cs ih =>
    simp only [countSub, hasSubB, Bool.or_eq_false_iff, ← ih]
    by_cases h : leadsB p (c :: cs) = true
    · simp [h]
    · simp [Bool.of_not_eq_true h]

theorem countSub_pos_of_hasSub {p s : List Char} (h : hasSubB p s = true) :
    0 < countSub p s := by
  by_contra hc
  have h0 : countSub p s = 0 := by omega
  rw [countSub_zero_iff] at h0
  simp [h0] at h

/-- If `s` has no occurrence of `q`, and `q` occurs inside `p`,
then `s` has no occurrence of `p` either. -/
theorem countSub_zero_mono {q p s : List Char} (hqp : hasSubB q p = true)
    (h : countSub q s = 0) : countSub p s = 0 := by
  rw [countSub_zero_iff] at h ⊢
  by_contra hp
  have hp' : hasSubB p s = true := Bool.of_not_eq_false hp
  rcases (hasSubB_iff p s).1 hp' with ⟨a, b, rfl⟩
  rcases (hasSubB_iff q p).1 hqp with ⟨a', b', rfl⟩
  have : hasSubB q (a ++ (a' ++ q ++ b') ++ b) = true := by
    rw [hasSubB_iff]
    exact ⟨a ++ a', b' ++ b, by simp⟩
  rw [this] at h
  cases h

theorem hasSubB_ext_right {p x : List Char} (y : List Char)
    (h : hasSubB p x = true) : hasSubB p (x ++ y) = true := by
  rcases (hasSubB_iff p x).1 h with ⟨a, b, rfl⟩
  rw [hasSubB_iff]
  exact ⟨a, b ++ y, by simp⟩

theorem hasSubB_ext_left (x : List Char) {p y : List Char}
    (h : hasSubB p y = true) : hasSubB p (x ++ y) = true := by
  rcases (hasSubB_iff p y).1 h with ⟨a, b, rfl⟩
  rw [hasSubB_iff]
  exact ⟨x ++ a, b, by simp⟩

/-- No occurrence of the pattern `p` in `x ++ y` starts strictly inside `x`
and runs past the end of `x`: `p` never matches starting at a proper
nonempty tail of `x` that is shorter than `p`. -/
def NS (p x y : List Char) : Prop :=
  ∀ x₁ x₂, x = x₁ ++ x₂ → x₂ ≠ [] → x₂.length < p.length →
    leadsB p (x₂ ++ y) = false

theorem NS_tail {p : List Char} {c : Char} {x y : List Char}
    (h : NS p (c :: x) y) : NS p x y := fun x₁ x₂ hx h1 h2 =>
  h (c :: x₁) x₂ (by simp [hx]) h1 h2

/-- Occurrence counts add over a concatenation when no occurrence
straddles the boundary. -/
theorem countSub_append {p x y : List Char} (hp : p ≠ []) (h : NS p x y) :
    countSub p (x ++ y) = countSub p x + countSub p y := by
  induction x with
  | nil => simp [countSub, hp]
  | cons c x' ih =>
    have ih' := ih (NS_tail h)
    show (if leadsB p (c :: (x' ++ y)) then 1 else 0) + countSub p (x' ++ y)
        = ((if leadsB p (c :: x') then 1 else 0) + countSub p x') + countSub p y
    rw [ih']
    by_cases hle : p.length ≤ (c :: x').length
    · have hhd : leadsB p (c :: (x' ++ y)) = leadsB p (c :: x') := by
        have h2 := leadsB_append_left (p := p) (c :: x') y hle
        simpa using h2
      rw [hhd]; omega
    · have h1 : leadsB p (c :: x') = false :=
        leadsB_of_short (by simp only [List.length_cons] at hle ⊢; omega)
      have h2 : leadsB p (c :: (x' ++ y)) = false := by
        have h3 := h [] (c :: x') (by simp) (by simp)
          (by simp only [List.length_cons] at hle ⊢; omega)
        simpa using h3
      rw [h1, h2]; omega

/-- Decidable left-straddle check: no nonempty tail of `x` that is shorter
than `p` is a prefix of `p`. -/
def noLSB (p : List Char) : List Char → Bool
  | [] => true
  | c :: cs =>
      (decide (p.length ≤ (c :: cs).length) || !(leadsB (c :: cs) p)) && noLSB p cs

theorem noLSB_spec {p : List Char} :
    ∀ (x₁ : List Char) {x : List Char}, noLSB p x = true → ∀ x₂, x = x₁ ++ x₂ →
      x₂ ≠ [] → x₂.length < p.length → leadsB x₂ p = false := by
  intro x₁
  induction x₁ with
  | nil =>
    intro x hx x₂ heq hne hlen
    rw [List.nil_append] at heq
    rw [heq] at hx
    cases x₂ with
    | nil => cases hne rfl
    | cons c cs =>
      simp only [noLSB, Bool.and_eq_true, Bool.or_eq_true, decide_eq_true_eq,
        Bool.not_eq_true'] at hx
      rcases hx.1 with hlen2 | hfalse
      · exact absurd hlen2 (by omega)
      · exact hfalse
  | cons a as ih =>
    intro x hx x₂ heq hne hlen
    subst heq
    have hx' : noLSB p (as ++ x₂) = true := by
      simp only [List.cons_append, noLSB, Bool.and_eq_true] at hx
      exact hx.2
    exact ih hx' x₂ rfl hne hlen

theorem NS_left {p x : List Char} (y : List Char) (h : noLSB p x = true) :
    NS p x y := by
  intro x₁ x₂ heq hne hlen
  by_contra hc
  have hlead : leadsB p (x₂ ++ y) = true := Bool.of_not_eq_false hc
  rcases leadsB_append_cases hlead with h1 | ⟨h1, _⟩
  · have h2 := leadsB_of_short hlen
    rw [h2] at h1; cases h1
  · rw [noLSB_spec x₁ h x₂ heq hne hlen] at h1; cases h1

/-- Decidable right-straddle check against a prefix `y₁` of the right part:
for every proper nonempty tail `q` of `p`, if `q` fits inside `y₁` then `q`
is not a prefix of `y₁`, and otherwise `y₁` is not a prefix of `q`. -/
def noRSB (p y₁ : List Char) : Bool :=
  (List.range p.length).all fun k =>
    decide (k = 0) ||
      (if p.length - k ≤ y₁.length then !(leadsB (p.drop k) y₁)
       else !(leadsB y₁ (p.drop k)))

theorem noRSB_spec {p y₁ : List Char} (h : noRSB p y₁ = true) :
    ∀ k, 0 < k → k < p.length → ∀ y₂, leadsB (p.drop k) (y₁ ++ y₂) = false := by
  intro k hk0 hk y₂
  have hall := List.all_eq_true.mp h k (List.mem_range.mpr hk)
  rw [Bool.or_eq_true, decide_eq_true_eq] at hall
  rcases hall with h0 | hcond
  · omega
  · by_cases hfit : p.length - k ≤ y₁.length
    · rw [if_pos hfit, Bool.not_eq_true'] at hcond
      rw [leadsB_append_left y₁ y₂ (by simp only [List.length_drop]; omega)]
      exact hcond
    · rw [if_neg hfit, Bool.not_eq_true'] at hcond
      by_contra hc
      have hlead := Bool.of_not_eq_false hc
      have h2 := leadsB_long_split hlead (by simp only [List.length_drop]; omega)
      rw [hcond] at h2; cases h2

theorem NS_right {p y₁ : List Char} (x y₂ : List Char) (h : noRSB p y₁ = true) :
    NS p x (y₁ ++ y₂) := by
  intro x₁ x₂ heq hne hlen
  by_contra hc
  have hlead : leadsB p (x₂ ++ (y₁ ++ y₂)) = true := Bool.of_not_eq_false hc
  rcases leadsB_append_cases hlead with h1 | ⟨h1, h2⟩
  · have h3 := leadsB_of_short hlen
    rw [h3] at h1; cases h1
  · have hk0 : 0 < x₂.length := List.length_pos.mpr hne
    have h3 := noRSB_spec h x₂.length hk0 hlen y₂
    rw [h3] at h2; cases h2

theorem NS_right_nil {p y : List Char} (x : List Char) (h : noRSB p y = true) :
    NS p x y := by
  have h2 := NS_right (p := p) x [] h
  rwa [List.append_nil] at h2

/-- Boolean test: `x` ends with the character `c`. -/
def endsC (c : Char) (x : List Char) : Bool := leadsB [c] x.reverse

theorem leadsB_single_append {c : Char} {l m : List Char} (hl : l ≠ [])
    (h : leadsB [c] (l ++ m) = true) : leadsB [c] l = true := by
  cases l with
  | nil => cases hl rfl
  | cons d ds =>
    simp only [List.cons_append, leadsB, Bool.and_eq_true] at h ⊢
    exact ⟨h.1, trivial⟩

theorem endsC_append {c : Char} {x₁ x₂ : List Char} (h : x₂ ≠ [])
    (hx : endsC c (x₁ ++ x₂) = true) : endsC c x₂ = true := by
  unfold endsC at *
  rw [List.reverse_append] at hx
  exact leadsB_single_append (by simpa using h) hx

theorem endsC_mem {c : Char} {x : List Char} (h : endsC c x = true) : c ∈ x := by
  unfold endsC at h
  have hmem : c ∈ x.reverse := leadsB_mem h (List.mem_cons_self c [])
  exact List.mem_reverse.mp hmem

/-- If `x` ends with a newline and `p` contains no newline, no occurrence of
`p` can straddle out of `x`. -/
theorem NS_nl {p x : List Char} (y : List Char) (hnl : ('\n' ∈ p) → False)
    (hx : endsC '\n' x = true) : NS p x y := by
  intro x₁ x₂ heq hne hlen
  by_contra hc
  have hlead : leadsB p (x₂ ++ y) = true := Bool.of_not_eq_false hc
  rcases leadsB_append_cases hlead with h1 | ⟨h1, _⟩
  · have h2 := leadsB_of_short hlen
    rw [h2] at h1; cases h1
  · have hend : endsC '\n' x₂ = true := endsC_append hne (heq ▸ hx)
    exact hnl (leadsB_mem h1 (endsC_mem hend))

/-- One scanning pass of `sed -e s@pat@rep@g`, with a fuel argument bounding
the number of consumed characters (so the recursion is structural; with fuel
at least the length of the text the scan always completes). -/
def replaceAllF (pat rep : List Char) : Nat → List Char → List Char
  | _, [] => []
  | 0, c :: cs => c :: cs
  | fuel + 1, c :: cs =>
    if pat ≠ [] ∧ leadsB pat (c :: cs) = true then
      rep ++ replaceAllF pat rep fuel ((c :: cs).drop pat.length)
    else
      c :: replaceAllF pat rep fuel cs

/-- `sed -e s@pat@rep@g` as a global left-to-right replacement on the whole
text (the pattern used by the script contains no newline, so line-wise and
whole-text replacement agree). -/
def replaceAll (pat rep s : List Char) : List Char :=
  replaceAllF pat rep s.length s

theorem replaceAllF_of_countZero {pat rep : List Char} :
    ∀ fuel s, countSub pat s = 0 → replaceAllF pat rep fuel s = s := by
  intro fuel
  induction fuel with
  | zero => intro s _; cases s <;> rfl
  | succ n ih =>
    intro s h
    cases s with
    | nil => rfl
    | cons c cs =>
      have hnot : ¬ (pat ≠ [] ∧ leadsB pat (c :: cs) = true) := by
        rintro ⟨hne, hlead⟩
        have hpos : 0 < countSub pat (c :: cs) := by
          show 0 < (if leadsB pat (c :: cs) then 1 else 0) + countSub pat cs
          simp [hlead]
        omega
      rw [replaceAllF, if_neg hnot]
      have hsplit : (if leadsB pat (c :: cs) then 1 else 0) + countSub pat cs
          = 0 := h
      have hcs : countSub pat cs = 0 := by
        by_cases hb : leadsB pat (c :: cs) = true
        · simp [hb] at hsplit
        · omega
      rw [ih cs hcs]

theorem replaceAll_of_countZero {pat rep : List Char} :
    ∀ s, countSub pat s = 0 → replaceAll pat rep s = s :=
  fun s h => replaceAllF_of_countZero s.length s h

theorem noRSB_drop {p y₁ : List Char} (h : noRSB p y₁ = true)
    (hlen : p.length ≤ y₁.length) :
    ∀ k, 0 < k → k < p.length → leadsB (p.drop k) y₁ = false := by
  intro k hk0 hk
  have hall := List.all_eq_true.mp h k (List.mem_range.mpr hk)
  rw [Bool.or_eq_true, decide_eq_true_eq] at hall
  rcases hall with h0 | hcond
  · omega
  · rw [if_pos (by omega), Bool.not_eq_true'] at hcond
    exact hcond

/-- Any prefix of the output of `replaceAll` that is shorter than `rep`
either is a prefix of the input, or ends in a nonempty prefix of `rep`. -/
theorem replaceAllF_prefix {pat rep : List Char} :
    ∀ fuel cs q, q.length < rep.length →
      leadsB q (replaceAllF pat rep fuel cs) = true →
      leadsB q cs = true ∨ ∃ a b, q = a ++ b ∧ b ≠ [] ∧ leadsB b rep = true := by
  intro fuel
  induction fuel with
  | zero =>
    intro cs q hq h
    cases cs with
    | nil =>
      rw [replaceAllF] at h
      cases q with
      | nil => exact Or.inl rfl
      | cons q0 qs => cases h
    | cons c cs' =>
      rw [replaceAllF] at h
      exact Or.inl h
  | succ n ih =>
    intro cs q hq h
    cases cs with
    | nil =>
      rw [replaceAllF] at h
      cases q with
      | nil => exact Or.inl rfl
      | cons q0 qs => cases h
    | cons c cs' =>
      rw [replaceAllF] at h
      by_cases hcond : pat ≠ [] ∧ leadsB pat (c :: cs') = true
      · rw [if_pos hcond] at h
        have hq2 : leadsB q rep = true := by
          have heq := leadsB_append_left (p := q) rep
            (replaceAllF pat rep n ((c :: cs').drop pat.length)) (le_of_lt hq)
          rw [heq] at h
          exact h
        cases q with
        | nil => exact Or.inl rfl
        | cons q0 qs =>
          exact Or.inr ⟨[], q0 :: qs, rfl, by simp, hq2⟩
      · rw [if_neg hcond] at h
        cases q with
        | nil => exact Or.inl rfl
        | cons q0 qs =>
          simp only [leadsB, Bool.and_eq_true, beq_iff_eq] at h
          rcases h with ⟨hq0, h2⟩
          have h3 := ih cs' qs
            (by simp only [List.length_cons] at hq ⊢; omega) h2
          rcases h3 with h3 | ⟨a, b, hab, hb, hlead⟩
          · left
            simp only [leadsB, Bool.and_eq_true, beq_iff_eq]
            exact ⟨hq0, h3⟩
          · right
            exact ⟨q0 :: a, b, by rw [hab, List.cons_append], hb, hlead⟩

/-- Under the no-reintroduction side conditions, the output of the scanning
pass (with enough fuel) contains no occurrence of the pattern at all. -/
theorem replaceAllF_no_pat {pat rep : List Char} (hne : pat ≠ [])
    (hlen : pat.length ≤ rep.length) (hrep : countSub pat rep = 0)
    (hLS : noLSB pat rep = true) (hRS : noRSB pat rep = true) :
    ∀ fuel s, s.length ≤ fuel →
      countSub pat (replaceAllF pat rep fuel s) = 0 := by
  intro fuel
  induction fuel with
  | zero =>
    intro s hs
    cases s with
    | nil => rw [replaceAllF]; simp [countSub, hne]
    | cons c cs => simp at hs
  | succ n ih =>
    intro s hs
    cases s with
    | nil => rw [replaceAllF]; simp [countSub, hne]
    | cons c cs =>
      rw [replaceAllF]
      by_cases hcond : pat ≠ [] ∧ leadsB pat (c :: cs) = true
      · rw [if_pos hcond]
        have hR : countSub pat
            (replaceAllF pat rep n ((c :: cs).drop pat.length)) = 0 := by
          apply ih
          have hp : 0 < pat.length := List.length_pos.mpr hne
          simp only [List.length_drop, List.length_cons]
          simp only [List.length_cons] at hs
          omega
        have hNS : NS pat rep
            (replaceAllF pat rep n ((c :: cs).drop pat.length)) :=
          NS_left _ hLS
        rw [countSub_append hne hNS, hrep, hR]
      · rw [if_neg hcond]
        have hcs : countSub pat (replaceAllF pat rep n cs) = 0 :=
          ih cs (by simp only [List.length_cons] at hs; omega)
        show (if leadsB pat (c :: replaceAllF pat rep n cs) then 1 else 0)
            + countSub pat (replaceAllF pat rep n cs) = 0
        rw [hcs]
        by_cases hhd : leadsB pat (c :: replaceAllF pat rep n cs) = true
        · exfalso
          cases hp : pat with
          | nil => exact hne hp
          | cons p0 ps =>
            rw [hp] at hhd
            simp only [leadsB, Bool.and_eq_true, beq_iff_eq] at hhd
            rcases hhd with ⟨hp0, hps⟩
            have hlt : ps.length < rep.length := by
              rw [hp] at hlen
              simp only [List.length_cons] at hlen
              omega
            rcases replaceAllF_prefix n cs ps hlt hps with
              h3 | ⟨a, b, hab, hb, hblead⟩
            · refine hcond ⟨hne, ?_⟩
              rw [hp]
              simp only [leadsB, Bool.and_eq_true, beq_iff_eq]
              exact ⟨hp0, h3⟩
            · have hk : leadsB (pat.drop (a.length + 1)) rep = false := by
                apply noRSB_drop hRS hlen
                · omega
                · rw [hp, hab]
                  simp only [List.length_cons, List.length_append]
                  have : 0 < b.length := List.length_pos.mpr hb
                  omega
              rw [hp, hab] at hk
              have hdrop : (p0 :: (a ++ b)).drop (a.length + 1) = b := by
                simp only [List.drop_succ_cons]
                exact List.drop_left a b
              rw [hdrop] at hk
              rw [hk] at hblead
              cases hblead
        · rw [Bool.of_not_eq_true hhd]
          simp

/-- Under the no-reintroduction side conditions, the output of `replaceAll`
contains no occurrence of the pattern at all. -/
theorem replaceAll_no_pat {pat rep : List Char} (hne : pat ≠ [])
    (hlen : pat.length ≤ rep.length) (hrep : countSub pat rep = 0)
    (hLS : noLSB pat rep = true) (hRS : noRSB pat rep = true) :
    ∀ s, countSub pat (replaceAll pat rep s) = 0 :=
  fun s => replaceAllF_no_pat hne hlen hrep hLS hRS s.length s le_rfl

/-- Under the no-reintroduction side conditions, `replaceAll` is idempotent. -/
theorem replaceAll_twice {pat rep : List Char} (hne : pat ≠ [])
    (hlen : pat.length ≤ rep.length) (hrep : countSub pat rep = 0)
    (hLS : noLSB pat rep = true) (hRS : noRSB pat rep = true) (s : List Char) :
    replaceAll pat rep (replaceAll pat rep s) = replaceAll pat rep s :=
  replaceAll_of_countZero _
    (replaceAll_no_pat hne hlen hrep hLS hRS s)

/-! ### The embedded script -/

/-- Outcome of one spawned subprocess (`subprocess.Popen`, line 14):
captured standard output and standard error, and the exit status, which the
script never consults. -/
structure ProcOut where
  out : String
  err : String
  exitCode : Int

/-- Python runtime errors raised by the embedded fragments. -/
inductive PyErr
  | nameError

/-- Python whitespace characters recognized by `str.strip()`. -/
def isWs (c : Char) : Bool :=
  c == ' ' || c == '\t' || c == '\n' || c == '\x0d' || c == '\x0b' || c == '\x0c'

/-- Python `s.strip()` (line 16): remove leading and trailing whitespace. -/
def pyStrip (s : String) : String :=
  String.mk (((s.data.dropWhile isWs).reverse.dropWhile isWs).reverse)

/-- `Cmd` (lines 9-20).  `spawn` is the subprocess oracle mapping the spawned
command line to its captured streams.  `debug = True` evaluates the undefined
name `cmd` on line 12 — a `NameError` raised before anything is spawned; the
model therefore never consults `spawn` in that case.  `verbose` only echoes
the streams and does not affect the returned value. -/
def Cmd (spawn : String → ProcOut) (command : String)
    (verbose debug : Bool) : Except PyErr (String × String) :=
  if debug then Except.error PyErr.nameError
  else
    let p := spawn command
    Except.ok (p.out, pyStrip p.err)

/-- The hard-coded registry `pkgs` (lines 22-48). -/
def pkgs : List (String × String) := [
  ("ana", "analytical solutions"),
  ("shp", "shape (interpolation) structures and quadrature points"),
  ("mdl/generic", "generic models (placeholder for parameters set)"),
  ("mdl/solid", "models for solids"),
  ("mdl/fluid", "models for fluids (liquid / gas)"),
  ("mdl/conduct", "models for liquid conductivity within porous media"),
  ("mdl/retention", "models for liquid retention within porous media"),
  ("mdl/diffusion", "models for diffusion applications"),
  ("mdl/thermomech", "models for thermo-mechanical applications"),
  ("mdl/porous", "models for porous media (TPM-based)"),
  ("inp", "input data (.sim = simulation, .mat = materials, .msh = meshes)"),
  ("ele", "finite elements"),
  ("ele/solid", "elements for solid mechanics"),
  ("ele/seepage", "elements for seepage problems (with liquid and/or gases)"),
  ("ele/diffusion", "elements for diffusion(-like) problems"),
  ("ele/thermomech", "elements for thermo-mechanical applications"),
  ("ele/porous", "elements for porous media simulations (TPM)"),
  ("fem", "finite element method (main, domain, solver, ...)"),
  ("tests", "(unit) tests of complete simulations"),
  ("tests/solid", "tests of solid mechanics applications"),
  ("tests/seepage", "tests of seepage problems"),
  ("tests/diffusion", "tests of diffusion problems"),
  ("tests/thermomech", "tests of thermo-mechanical applications"),
  ("tests/porous", "tests of porous media simulations"),
  ("out", "output routines (post-processing and plotting)")]

/-- `odir` (line 50). -/
def odir : String := "doc/"

/-- `idxfn` (line 51). -/
def idxfn : String := odir ++ "index.html"

/-- `header(title)` (lines 54-68), as it lands in the output file: the `echo`
argument after shell double-quote unescaping, so `\"` of the source is `"`
here; the shell keeps the backslash of `class=\wide\">` (line 66), as `\w`
is not a double-quote escape. -/
def header (title : String) : String :=
  "<html>\n<head>\n<meta http-equiv=\"Content-Type\" content=\"text/html; charset=utf-8\">\n<meta name=\"viewport\" content=\"width=device-width, initial-scale=1\">\n<meta name=\"theme-color\" content=\"#375EAB\">\n<title>" ++
    title ++
    "</title>\n<link type=\"text/css\" rel=\"stylesheet\" href=\"static/style.css\">\n<script type=\"text/javascript\" src=\"static/godocs.js\"></script>\n<style type=\"text/css\"></style>\n</head>\n<body>\n<div id=\"page\" class=\\wide\">\n<div class=\"container\">\n"

/-- Opening part of `footer()` (lines 70-76), up to and including the newline
after `<pre class="copyright">`, i.e. up to the `%s` splice point. -/
def fPre : String :=
  "\n<div id=\"footer\">\n<br /><br />\n<hr>\n<pre class=\"copyright\">\n"

/-- Closing part of `footer()` (lines 76-82), from `</pre>` on. -/
def fPost : String :=
  "</pre><!-- copyright -->\n</div><!-- footer -->\n\n</div><!-- container -->\n</div><!-- page -->\n</body>\n</html>"

/-- `footer()` (lines 70-82): the license text loaded on line 52 is spliced
verbatim via `%s`. -/
def footer (licen : String) : String := fPre ++ licen ++ fPost

/-- `pkg[0].replace("/","-")` (lines 88 and 96). -/
def flatName (p : String) : String :=
  String.mk (p.data.map fun c => if c = '/' then '-' else c)

/-- `pkgheader(pkg)` (lines 84-85). -/
def pkgheader (pkg : String × String) : String :=
  header ("Gofem &ndash; package " ++ pkg.1) ++
    ("<h1>Gofem &ndash; <b>" ++ pkg.1 ++ "</b> &ndash; " ++ pkg.2 ++ "</h1>")

/-- `pkgitem(pkg)` (lines 87-89). -/
def pkgitem (pkg : String × String) : String :=
  "<dd><a href=\"xx" ++ flatName pkg.1 ++ ".html\"><b>" ++ pkg.1 ++ "</b>: " ++
    pkg.2 ++ "</a></dd>"

/-- `fn`, the output file of a package (line 97). -/
def outFile (pkg : String × String) : String :=
  odir ++ "xx" ++ flatName pkg.1 ++ ".html"

/-- The command line spawned for the documentation tool (line 100). -/
def gcmd (path : String) : String :=
  "godoc -html github.com/cpmech/gofem/" ++ path

/-- The `sed` pattern of the link fix (line 105). -/
def sedPat : String := "/src/target"

/-- The `sed` replacement text for a package path (line 105). -/
def sedRep (path : String) : String :=
  "https://github.com/cpmech/gofem/blob/master/" ++ path

/-- The in-place `sed` substitution (line 105) on a whole file content. -/
def sedLinks (path : String) (s : String) : String :=
  String.mk (replaceAll sedPat.data (sedRep path).data s.data)

/-- File system: file name to content, absent files mapped to `none`. -/
def Fs : Type := String → Option String

/-- One shell-level file effect of the run: `echo ... > f`,
`echo`/`godoc ... >> f`, or `sed -i -e ... f`. -/
inductive FOp
  | create : String → String → FOp
  | append : String → String → FOp
  | sedFix : String → String → FOp

/-- The file an operation touches. -/
def FOp.file : FOp → String
  | .create f _ => f
  | .append f _ => f
  | .sedFix f _ => f

/-- Apply one operation: `>` truncates or creates, `>>` appends (creating an
absent file), and `sed -i` rewrites an existing file in place (an absent file
is left absent). -/
def applyOp (fs : Fs) : FOp → Fs
  | .create f c => fun f' => if f' = f then some c else fs f'
  | .append f c => fun f' => if f' = f then some ((fs f).getD "" ++ c) else fs f'
  | .sedFix f p => fun f' => if f' = f then (fs f).map (sedLinks p) else fs f'

/-- Run a list of operations in order. -/
def runOps (ops : List FOp) (fs : Fs) : Fs := ops.foldl applyOp fs

/-- The five operations of one iteration of the main loop (lines 95-105) for
package `pkg`: create the file with the package header (line 99), append the
tool output (line 100), append the footer (line 101), append the index item
to the index file (line 102), and fix the links in place (line 105).  `echo`
appends a newline to its argument; the tool output is appended as captured. -/
def groupOps (licen : String) (g : String → String)
    (pkg : String × String) : List FOp :=
  [FOp.create (outFile pkg) (pkgheader pkg ++ "\n"),
   FOp.append (outFile pkg) (g (gcmd pkg.1)),
   FOp.append (outFile pkg) (footer licen ++ "\n"),
   FOp.append idxfn (pkgitem pkg ++ "\n"),
   FOp.sedFix (outFile pkg) pkg.1]

/-- The three writes that open the index (lines 91-93). -/
def idxOpenOps : List FOp :=
  [FOp.create idxfn (header "Gofem &ndash; Documentation" ++ "\n"),
   FOp.append idxfn ("<h1>Gofem &ndash; Documentation</h1>" ++ "\n"),
   FOp.append idxfn
     ("<h2 id=\"pkg-index\">Index</h2>\n<div id=\"manual-nav\">\n<dl>" ++ "\n")]

/-- The two closing index writes (lines 107-108). -/
def idxCloseOps (licen : String) : List FOp :=
  [FOp.append idxfn ("</dl>\n</div><!-- manual-nav -->" ++ "\n"),
   FOp.append idxfn (footer licen ++ "\n")]

/-- The full trace of the run (lines 91-108) over a registry. -/
def script (registry : List (String × String)) (licen : String)
    (g : String → String) : List FOp :=
  idxOpenOps ++ registry.flatMap (groupOps licen g) ++ idxCloseOps licen

/-- Final file system of a run started on `fs`. -/
def runScript (registry : List (String × String)) (licen : String)
    (g : String → String) (fs : Fs) : Fs :=
  runOps (script registry licen g) fs

/-- Whole module run: line 52 loads `LICENSE` before any output command runs
(the first `Cmd` is on line 91); a missing `LICENSE` raises there, producing
no operations at all. -/
def moduleRun (licenseFile : Option String) (g : String → String) :
    Except Unit (List FOp) :=
  match licenseFile with
  | none => Except.error ()
  | some licen => Except.ok (script pkgs licen g)

/-- File system after a whole module run; unchanged when loading `LICENSE`
failed. -/
def moduleFs (licenseFile : Option String) (g : String → String) (fs : Fs) : Fs :=
  match moduleRun licenseFile g with
  | Except.error _ => fs
  | Except.ok ops => runOps ops fs

/-- Concatenation of a list of strings. -/
def concatAll : List String → String
  | [] => ""
  | s :: ss => s ++ concatAll ss

/-- Content of the opened index before any item is appended (lines 91-93). -/
def idxOpen : String :=
  header "Gofem &ndash; Documentation" ++ "\n" ++
    ("<h1>Gofem &ndash; Documentation</h1>" ++ "\n") ++
    ("<h2 id=\"pkg-index\">Index</h2>\n<div id=\"manual-nav\">\n<dl>" ++ "\n")

/-- Closing list markup of the index (line 107). -/
def idxClose : String := "</dl>\n</div><!-- manual-nav -->" ++ "\n"

/-! ### Run lemmas -/

theorem runOps_append (a b : List FOp) (fs : Fs) :
    runOps (a ++ b) fs = runOps b (runOps a fs) := by
  unfold runOps
  exact List.foldl_append _ _ _ _

theorem applyOp_other {fs : Fs} {op : FOp} {f : String} (h : f ≠ op.file) :
    applyOp fs op f = fs f := by
  cases op with
  | create f0 c => exact if_neg h
  | append f0 c => exact if_neg h
  | sedFix f0 p => exact if_neg h

theorem runOps_untouched {ops : List FOp} {f : String}
    (h : ∀ op ∈ ops, f ≠ op.file) (fs : Fs) : runOps ops fs f = fs f := by
  induction ops generalizing fs with
  | nil => rfl
  | cons op rest ih =>
    show runOps rest (applyOp fs op) f = fs f
    rw [ih (fun o ho => h o (List.mem_cons_of_mem _ ho))]
    exact applyOp_other (h op (List.mem_cons_self _ _))

theorem groupOps_files {licen : String} {g : String → String}
    {e : String × String} {op : FOp} (hop : op ∈ groupOps licen g e) :
    op.file = outFile e ∨ op.file = idxfn := by
  simp only [groupOps, List.mem_cons, List.not_mem_nil, or_false] at hop
  rcases hop with rfl | rfl | rfl | rfl | rfl <;> simp [FOp.file]

theorem groupOps_self {licen : String} {g : String → String}
    {e : String × String} (hfe : outFile e ≠ idxfn) (fs : Fs) :
    runOps (groupOps licen g e) fs (outFile e) =
      some (sedLinks e.1
        (((pkgheader e ++ "\n") ++ g (gcmd e.1)) ++ (footer licen ++ "\n"))) := by
  show applyOp (applyOp (applyOp (applyOp (applyOp fs
      (FOp.create (outFile e) (pkgheader e ++ "\n")))
      (FOp.append (outFile e) (g (gcmd e.1))))
      (FOp.append (outFile e) (footer licen ++ "\n")))
      (FOp.append idxfn (pkgitem e ++ "\n")))
      (FOp.sedFix (outFile e) e.1) (outFile e) = _
  simp [applyOp, hfe, Ne.symm hfe]

theorem groupOps_other {licen : String} {g : String → String}
    {e : String × String} {f : String} (hf1 : f ≠ outFile e) (hf2 : f ≠ idxfn)
    (fs : Fs) : runOps (groupOps licen g e) fs f = fs f := by
  apply runOps_untouched _ fs
  intro op hop
  rcases groupOps_files hop with h | h <;> rw [h]
  · exact hf1
  · exact hf2

theorem groupOps_idx {licen : String} {g : String → String}
    {e : String × String} (hfe : outFile e ≠ idxfn) (fs : Fs) {s : String}
    (hs : fs idxfn = some s) :
    runOps (groupOps licen g e) fs idxfn = some (s ++ (pkgitem e ++ "\n")) := by
  show applyOp (applyOp (applyOp (applyOp (applyOp fs
      (FOp.create (outFile e) (pkgheader e ++ "\n")))
      (FOp.append (outFile e) (g (gcmd e.1))))
      (FOp.append (outFile e) (footer licen ++ "\n")))
      (FOp.append idxfn (pkgitem e ++ "\n")))
      (FOp.sedFix (outFile e) e.1) idxfn = _
  simp [applyOp, Ne.symm hfe, hs]

theorem flatMap_pkg (licen : String) (g : String → String) :
    ∀ (registry : List (String × String)) (fs : Fs) (e : String × String),
      e ∈ registry → (registry.map outFile).Nodup →
      (∀ e' ∈ registry, outFile e' ≠ idxfn) →
      runOps (registry.flatMap (groupOps licen g)) fs (outFile e) =
        some (sedLinks e.1
          (((pkgheader e ++ "\n") ++ g (gcmd e.1)) ++ (footer licen ++ "\n"))) := by
  intro registry
  induction registry with
  | nil => intro fs e he _ _; cases he
  | cons r rest ih =>
    intro fs e he hnd hidx
    rw [List.map_cons] at hnd
    have hnd1 := (List.nodup_cons.mp hnd).1
    have hnd2 := (List.nodup_cons.mp hnd).2
    rw [List.flatMap_cons, runOps_append]
    rcases List.mem_cons.mp he with rfl | he'
    · have hrest : runOps (rest.flatMap (groupOps licen g))
          (runOps (groupOps licen g e) fs) (outFile e)
          = runOps (groupOps licen g e) fs (outFile e) := by
        apply runOps_untouched
        intro op hop
        rcases List.mem_flatMap.mp hop with ⟨e', he'', hop'⟩
        rcases groupOps_files hop' with h | h <;> rw [h]
        · intro hcontra
          exact hnd1 (hcontra ▸ List.mem_map_of_mem outFile he'')
        · exact hidx e (List.mem_cons_self _ _)
      rw [hrest, groupOps_self (hidx e (List.mem_cons_self _ _)) fs]
    · exact ih _ e he' hnd2
        (fun e'' h'' => hidx e'' (List.mem_cons_of_mem _ h''))

theorem flatMap_idx (licen : String) (g : String → String) :
    ∀ (registry : List (String × String)) (fs : Fs) (s : String),
      fs idxfn = some s → (∀ e' ∈ registry, outFile e' ≠ idxfn) →
      runOps (registry.flatMap (groupOps licen g)) fs idxfn =
        some (s ++ concatAll (registry.map fun e => pkgitem e ++ "\n")) := by
  intro registry
  induction registry with
  | nil =>
    intro fs s hs _
    show fs idxfn = _
    rw [hs, List.map_nil, concatAll]
    rw [String.append_empty]
  | cons r rest ih =>
    intro fs s hs hidx
    rw [List.flatMap_cons, runOps_append]
    rw [ih _ (s ++ (pkgitem r ++ "\n"))
      (groupOps_idx (hidx r (List.mem_cons_self _ _)) fs hs)
      (fun e'' h'' => hidx e'' (List.mem_cons_of_mem _ h''))]
    rw [List.map_cons, concatAll, String.append_assoc]

theorem runScript_idx {registry : List (String × String)} {licen : String}
    {g : String → String} (fs : Fs)
    (hidx : ∀ e' ∈ registry, outFile e' ≠ idxfn) :
    runScript registry licen g fs idxfn =
      some (idxOpen ++ concatAll (registry.map fun e => pkgitem e ++ "\n") ++
        idxClose ++ (footer licen ++ "\n")) := by
  unfold runScript script
  rw [runOps_append, runOps_append]
  have h1 : runOps idxOpenOps fs idxfn = some idxOpen := by
    show applyOp (applyOp (applyOp fs
        (FOp.create idxfn (header "Gofem &ndash; Documentation" ++ "\n")))
        (FOp.append idxfn ("<h1>Gofem &ndash; Documentation</h1>" ++ "\n")))
        (FOp.append idxfn
          ("<h2 id=\"pkg-index\">Index</h2>\n<div id=\"manual-nav\">\n<dl>" ++ "\n"))
        idxfn = _
    simp [applyOp, idxOpen]
  have h2 := flatMap_idx licen g registry (runOps idxOpenOps fs) idxOpen h1 hidx
  show applyOp (applyOp
      (runOps (registry.flatMap (groupOps licen g)) (runOps idxOpenOps fs))
      (FOp.append idxfn ("</dl>\n</div><!-- manual-nav -->" ++ "\n")))
      (FOp.append idxfn (footer licen ++ "\n")) idxfn = _
  simp [applyOp, h2, idxClose]

theorem runScript_pkg {registry : List (String × String)} {licen : String}
    {g : String → String} (fs : Fs) {e : String × String} (he : e ∈ registry)
    (hnd : (registry.map outFile).Nodup)
    (hidx : ∀ e' ∈ registry, outFile e' ≠ idxfn) :
    runScript registry licen g fs (outFile e) =
      some (sedLinks e.1
        (((pkgheader e ++ "\n") ++ g (gcmd e.1)) ++ (footer licen ++ "\n"))) := by
  unfold runScript script
  rw [runOps_append, runOps_append]
  have hclose : ∀ op ∈ idxCloseOps licen, outFile e ≠ op.file := by
    intro op hop
    simp only [idxCloseOps, List.mem_cons, List.not_mem_nil, or_false] at hop
    rcases hop with rfl | rfl <;> simpa [FOp.file] using hidx e he
  rw [runOps_untouched hclose]
  exact flatMap_pkg licen g registry _ e he hnd hidx

theorem script_files {registry : List (String × String)} {licen : String}
    {g : String → String} {op : FOp} (hop : op ∈ script registry licen g) :
    op.file = idxfn ∨ ∃ e ∈ registry, op.file = outFile e := by
  simp only [script, List.mem_append] at hop
  rcases hop with (hop | hop) | hop
  · simp only [idxOpenOps, List.mem_cons, List.not_mem_nil, or_false] at hop
    rcases hop with rfl | rfl | rfl <;> simp [FOp.file]
  · rcases List.mem_flatMap.mp hop with ⟨e, he, hop'⟩
    rcases groupOps_files hop' with h | h
    · exact Or.inr ⟨e, he, h⟩
    · exact Or.inl h
  · simp only [idxCloseOps, List.mem_cons, List.not_mem_nil, or_false] at hop
    rcases hop with rfl | rfl <;> simp [FOp.file]

theorem runScript_other {registry : List (String × String)} {licen : String}
    {g : String → String} (fs : Fs) {f : String} (hf : f ≠ idxfn)
    (hf2 : ∀ e ∈ registry, f ≠ outFile e) :
    runScript registry licen g fs f = fs f := by
  apply runOps_untouched _ fs
  intro op hop
  rcases script_files hop with h | ⟨e, he, h⟩ <;> rw [h]
  · exact hf
  · exact hf2 e he

/-! ### Counting occurrences in the generated files -/

/-- Occurrences of a newline-free pattern `p` in an assembled package file
split over its five parts: package header plus newline (`A`), tool output
(`u`), footer opening (`B`), license (`l`), footer closing plus newline
(`C`).  `A` and `B` end in a newline, so nothing straddles out of them. -/
theorem countSub_file {p A u B l C : List Char} (hp : p ≠ [])
    (hnl : ('\n' ∈ p) → False)
    (hA : endsC '\n' A = true) (hB : endsC '\n' B = true)
    (hRB : noRSB p B = true) (hRC : noRSB p C = true) :
    countSub p (A ++ (u ++ (B ++ (l ++ C)))) =
      countSub p A + countSub p u + countSub p B + countSub p l
        + countSub p C := by
  rw [countSub_append hp (NS_nl _ hnl hA),
    countSub_append hp (NS_right u (l ++ C) hRB),
    countSub_append hp (NS_nl _ hnl hB),
    countSub_append hp (NS_right_nil _ hRC)]
  omega

/-- The same five-part split for an arbitrary pattern (used for the whole
header block, which contains newlines), with decidable straddle checks on
the concrete parts. -/
theorem countSub_file5 {p A u B l C : List Char} (hp : p ≠ [])
    (hLA : noLSB p A = true) (hRB : noRSB p B = true) (hLB : noLSB p B = true)
    (hRC : noRSB p C = true) :
    countSub p (A ++ (u ++ (B ++ (l ++ C)))) =
      countSub p A + countSub p u + countSub p B + countSub p l
        + countSub p C := by
  rw [countSub_append hp (NS_left _ hLA),
    countSub_append hp (NS_right u (l ++ C) hRB),
    countSub_append hp (NS_left _ hLB),
    countSub_append hp (NS_right_nil _ hRC)]
  omega

/-- Occurrences of a newline-free pattern in the index file split over its
three parts: everything before the license (`w`, ending in a newline), the
license (`l`), and the footer closing (`v`). -/
theorem countSub_file3 {p w l v : List Char} (hp : p ≠ [])
    (hnl : ('\n' ∈ p) → False) (hI : endsC '\n' w = true)
    (hRI : noRSB p v = true) :
    countSub p (w ++ (l ++ v)) =
      countSub p w + countSub p l + countSub p v := by
  rw [countSub_append hp (NS_nl _ hnl hI),
    countSub_append hp (NS_right_nil _ hRI)]
  omega

theorem mk_data_eq (s : String) : String.mk s.data = s := rfl

theorem endsC_str_nl (s : String) : endsC '\n' (s ++ "\n").data = true := by
  unfold endsC
  rw [String.data_append]
  have h : ("\n" : String).data = ['\n'] := rfl
  rw [h, List.reverse_append]
  simp [leadsB]

/-- The character data of an assembled package file body, regrouped into the
five parts used by the counting lemmas. -/
theorem pkgFileData (e : String × String) (gout licen : String) :
    (((pkgheader e ++ "\n") ++ gout) ++ (footer licen ++ "\n")).data
      = (pkgheader e ++ "\n").data ++ (gout.data ++
          (fPre.data ++ (licen.data ++ (fPost ++ "\n").data))) := by
  simp [String.data_append, footer, List.append_assoc]

/-- The character data of the assembled index file, regrouped into the three
parts used by the counting lemmas. -/
theorem idxFileData (items licen : String) :
    ((idxOpen ++ items ++ idxClose ++ (footer licen ++ "\n"))).data
      = (idxOpen ++ items ++ idxClose ++ fPre).data ++
          (licen.data ++ (fPost ++ "\n").data) := by
  simp [String.data_append, footer, List.append_assoc]

/-- When neither the package header, the tool output nor the license contain
the `sed` pattern, the link-fixing pass leaves the assembled file unchanged
(the fixed parts of the header and footer are checked not to contain it, nor
to let an occurrence straddle a boundary). -/
theorem sed_id (e : String × String) (gout licen : String)
    (hA : countSub sedPat.data (pkgheader e ++ "\n").data = 0)
    (hg : countSub sedPat.data gout.data = 0)
    (hlic : countSub sedPat.data licen.data = 0) :
    sedLinks e.1 (((pkgheader e ++ "\n") ++ gout) ++ (footer licen ++ "\n"))
      = ((pkgheader e ++ "\n") ++ gout) ++ (footer licen ++ "\n") := by
  unfold sedLinks
  rw [replaceAll_of_countZero]
  rw [pkgFileData]
  have hcount := countSub_file (p := sedPat.data)
    (A := (pkgheader e ++ "\n").data) (u := gout.data) (B := fPre.data)
    (l := licen.data) (C := (fPost ++ "\n").data)
    (by decide) (by decide) (endsC_str_nl _) (by decide) (by decide) (by decide)
  rw [hcount, hA, hg, hlic]
  decide

/-! ### Small extractors and facts used to state the claims -/

/-- Remainder of `s` after the first occurrence of `p` (`none` when `p`
does not occur in `s`). -/
def dropThrough (p : List Char) : List Char → Option (List Char)
  | [] => none
  | c :: cs =>
    if leadsB p (c :: cs) then some ((c :: cs).drop p.length)
    else dropThrough p cs

/-- Prefix of `s` before the first occurrence of `p` (`none` when `p`
does not occur in `s`). -/
def takeUntil (p : List Char) : List Char → Option (List Char)
  | [] => none
  | c :: cs =>
    if leadsB p (c :: cs) then some []
    else (takeUntil p cs).map fun t => c :: t

/-- The target of the first `href="..."` attribute of an HTML fragment. -/
def hrefTarget (s : String) : Option String :=
  (dropThrough ("href=\"").data s.data).bind fun r =>
    (takeUntil ['"'] r).map String.mk

/-- Visible text of an HTML fragment: drop every `<...>` tag (second
argument: currently inside a tag). -/
def stripTags : List Char → Bool → List Char
  | [], _ => []
  | c :: cs, true => stripTags cs (c != '>')
  | c :: cs, false =>
    if c = '<' then stripTags cs true else c :: stripTags cs false

/-- Modelled from the spec claim: the captured standard error "with trailing
whitespace trimmed" — trailing-only trimming, stated for comparison with the
code's two-sided `strip()`. -/
def specTrimTrailing (s : String) : String :=
  String.mk ((s.data.reverse.dropWhile isWs).reverse)

theorem takeWhile_all {α : Type} (q : α → Bool) (l : List α) :
    ∀ a ∈ l.takeWhile q, q a = true := by
  induction l with
  | nil => intro a ha; cases ha
  | cons x xs ih =>
    intro a ha
    by_cases hx : q x = true
    · rw [List.takeWhile_cons_of_pos hx] at ha
      rcases List.mem_cons.mp ha with rfl | ha'
      · exact hx
      · exact ih a ha'
    · rw [List.takeWhile_cons_of_neg (by simpa using hx)] at ha
      cases ha

theorem dropWhile_head_not {α : Type} {q : α → Bool} :
    ∀ (l : List α) {a}, (l.dropWhile q).head? = some a → q a = false := by
  intro l
  induction l with
  | nil => intro a ha; cases ha
  | cons x xs ih =>
    intro a ha
    by_cases hx : q x = true
    · rw [List.dropWhile_cons_of_pos hx] at ha
      exact ih ha
    · rw [List.dropWhile_cons_of_neg (by simpa using hx)] at ha
      simp only [List.head?_cons, Option.some.injEq] at ha
      rw [← ha]
      simpa using hx

theorem head?_append_left {α : Type} {l₁ : List α} (l₂ : List α)
    (h : l₁ ≠ []) : (l₁ ++ l₂).head? = l₁.head? := by
  cases l₁ with
  | nil => cases h rfl
  | cons x xs => rfl

/-- What `strip()` computes: the original stderr is a whitespace prefix,
then the returned text, then a whitespace suffix, and the returned text
neither starts nor ends with whitespace. -/
theorem pyStrip_spec (s : String) :
    ∃ a b, s.data = a ++ (pyStrip s).data ++ b ∧
      (∀ c ∈ a, isWs c = true) ∧ (∀ c ∈ b, isWs c = true) ∧
      (∀ c, (pyStrip s).data.head? = some c → isWs c = false) ∧
      (∀ c, (pyStrip s).data.reverse.head? = some c → isWs c = false) := by
  refine ⟨s.data.takeWhile isWs,
    ((s.data.dropWhile isWs).reverse.takeWhile isWs).reverse, ?_, ?_, ?_, ?_, ?_⟩
  · rw [show (pyStrip s).data
      = ((s.data.dropWhile isWs).reverse.dropWhile isWs).reverse from rfl]
    rw [List.append_assoc]
    calc s.data
        = s.data.takeWhile isWs ++ s.data.dropWhile isWs :=
          (List.takeWhile_append_dropWhile isWs s.data).symm
      _ = s.data.takeWhile isWs ++ ((s.data.dropWhile isWs).reverse).reverse := by
          rw [List.reverse_reverse]
      _ = s.data.takeWhile isWs ++
            ((s.data.dropWhile isWs).reverse.takeWhile isWs ++
              (s.data.dropWhile isWs).reverse.dropWhile isWs).reverse := by
          rw [List.takeWhile_append_dropWhile]
      _ = s.data.takeWhile isWs ++
            (((s.data.dropWhile isWs).reverse.dropWhile isWs).reverse ++
              ((s.data.dropWhile isWs).reverse.takeWhile isWs).reverse) := by
          rw [List.reverse_append]
  · exact takeWhile_all _ _
  · intro c hc
    exact takeWhile_all _ _ c (List.mem_reverse.mp hc)
  · intro c hc
    show isWs c = false
    have hXrev : s.data.dropWhile isWs
        = ((s.data.dropWhile isWs).reverse.dropWhile isWs).reverse ++
          ((s.data.dropWhile isWs).reverse.takeWhile isWs).reverse := by
      calc s.data.dropWhile isWs
          = ((s.data.dropWhile isWs).reverse).reverse := by rw [List.reverse_reverse]
        _ = ((s.data.dropWhile isWs).reverse.takeWhile isWs ++
              (s.data.dropWhile isWs).reverse.dropWhile isWs).reverse := by
            rw [List.takeWhile_append_dropWhile]
        _ = _ := by rw [List.reverse_append]
    have hne : ((s.data.dropWhile isWs).reverse.dropWhile isWs).reverse ≠ [] := by
      intro hcontra
      rw [show (pyStrip s).data
          = ((s.data.dropWhile isWs).reverse.dropWhile isWs).reverse from rfl,
        hcontra] at hc
      cases hc
    have hhead : (s.data.dropWhile isWs).head? = some c := by
      rw [hXrev, head?_append_left _ hne]
      exact hc
    exact dropWhile_head_not _ hhead
  · intro c hc
    rw [show (pyStrip s).data.reverse
        = (s.data.dropWhile isWs).reverse.dropWhile isWs by
          rw [show (pyStrip s).data
            = ((s.data.dropWhile isWs).reverse.dropWhile isWs).reverse from rfl,
            List.reverse_reverse]] at hc
    exact dropWhile_head_not _ hc

/-- The empty file system a fresh run starts on. -/
def emptyFs : Fs := fun _ => none

theorem map_id_of_no_slash : ∀ l : List Char, ('/' ∈ l → False) →
    l.map (fun c => if c = '/' then '-' else c) = l := by
  intro l h
  induction l with
  | nil => rfl
  | cons c cs ih =>
    rw [List.map_cons,
      if_neg (fun hc => h (List.mem_cons.mpr (Or.inl hc.symm))),
      ih (fun hm => h (List.mem_cons_of_mem _ hm))]

/-! ### The claims -/

/-- Claim C4: the `flatName` derivation is a pure, deterministic, total
function on strings that replaces every `/` by `-` (so `mdl/solid` maps to
`mdl-solid`), and it is idempotent on any input containing no `/`. -/
theorem c4_flatName :
    flatName "mdl/solid" = "mdl-solid" ∧
    (∀ p : String, (flatName p).data
        = p.data.map (fun c => if c = '/' then '-' else c)) ∧
    (∀ p : String, ('/' ∈ p.data → False) →
      flatName (flatName p) = flatName p) := by
  refine ⟨by decide, fun p => rfl, ?_⟩
  intro p hp
  have h : (flatName p).data = p.data := map_id_of_no_slash p.data hp
  show String.mk ((flatName p).data.map _) = flatName p
  rw [h]
  rfl

/-- Witness for C4 at a concrete slash-free input. -/
theorem c4_witness : flatName (flatName "abc") = flatName "abc" :=
  c4_flatName.2.2 "abc" (by decide)

/-- Claim C5: the footer fragment appended to every generated file — each
per-package file (line 101) and the index (line 108) — embeds the license
text loaded at run start verbatim inside a `<pre>` block; `footer` is a
fixed function of that text. -/
theorem c5_footer (registry : List (String × String)) (licen : String)
    (g : String → String) :
    (∀ e, e ∈ registry →
      FOp.append (outFile e) (footer licen ++ "\n") ∈ script registry licen g) ∧
    (FOp.append idxfn (footer licen ++ "\n") ∈ script registry licen g) ∧
    (footer licen).data
      = ("\n<div id=\"footer\">\n<br /><br />\n<hr>\n").data ++
        (("<pre class=\"copyright\">\n").data ++ licen.data ++ ("</pre>").data) ++
        ("<!-- copyright -->\n</div><!-- footer -->\n\n</div><!-- container -->\n</div><!-- page -->\n</body>\n</html>").data := by
  refine ⟨?_, ?_, ?_⟩
  · intro e he
    unfold script
    refine List.mem_append.mpr (Or.inl (List.mem_append.mpr (Or.inr ?_)))
    exact List.mem_flatMap.mpr ⟨e, he, by simp [groupOps]⟩
  · unfold script
    refine List.mem_append.mpr (Or.inr ?_)
    simp [idxCloseOps]
  · have h1 : fPre.data
        = ("\n<div id=\"footer\">\n<br /><br />\n<hr>\n").data ++
          ("<pre class=\"copyright\">\n").data := by decide
    have h2 : fPost.data
        = ("</pre>").data ++
          ("<!-- copyright -->\n</div><!-- footer -->\n\n</div><!-- container -->\n</div><!-- page -->\n</body>\n</html>").data := by
      decide
    simp only [footer, String.data_append, h1, h2, List.append_assoc]

/-- Witness for C5 at a concrete registry entry and license. -/
theorem c5_witness :
    FOp.append (outFile ("ana", "analytical solutions"))
        (footer "MIT" ++ "\n") ∈ script pkgs "MIT" (fun _ => "") ∧
    FOp.append idxfn (footer "MIT" ++ "\n") ∈ script pkgs "MIT" (fun _ => "") := by
  have h := c5_footer pkgs "MIT" (fun _ => "")
  exact ⟨h.1 ("ana", "analytical solutions") (by decide), h.2.1⟩

/-- Claim C6: for every registry entry, the `sed` replacement text (the
absolute repository URL followed by the package path) contains no occurrence
of the placeholder `/src/target`; consequently the link-fixing substitution
is idempotent: applying it a second time to any file content changes
nothing. -/
theorem c6_sed_idempotent :
    ∀ e, e ∈ pkgs →
      countSub sedPat.data (sedRep e.1).data = 0 ∧
      ∀ s : String, sedLinks e.1 (sedLinks e.1 s) = sedLinks e.1 s := by
  intro e he
  have hall : pkgs.all (fun r =>
      (countSub sedPat.data (sedRep r.1).data == 0) &&
      noLSB sedPat.data (sedRep r.1).data &&
      noRSB sedPat.data (sedRep r.1).data &&
      decide (sedPat.data.length ≤ (sedRep r.1).data.length)) = true := by decide
  have h := List.all_eq_true.mp hall e he
  simp only [Bool.and_eq_true, beq_iff_eq, decide_eq_true_eq] at h
  refine ⟨h.1.1.1, ?_⟩
  intro s
  unfold sedLinks
  congr 1
  exact replaceAll_twice (by decide) h.2 h.1.1.1 h.1.1.2 h.1.2 s.data

/-- Witness for C6 at the first registry entry and a concrete content. -/
theorem c6_witness :
    countSub sedPat.data (sedRep "ana").data = 0 ∧
    sedLinks "ana" (sedLinks "ana" "a /src/target b")
      = sedLinks "ana" "a /src/target b" := by
  have h := c6_sed_idempotent ("ana", "analytical solutions") (by decide)
  exact ⟨h.1, h.2 "a /src/target b"⟩

/-- Claim C7: a missing (unreadable) `LICENSE` file aborts the whole run at
startup, before any output command: the module run yields an unrecovered
error and an empty operation trace, and every file of any starting file
system is left unchanged — in particular neither the index nor any
per-package file is created or modified. -/
theorem c7_missing_license (g : String → String) :
    moduleRun none g = Except.error () ∧
    (∀ fs : Fs, ∀ f : String, moduleFs none g fs f = fs f) :=
  ⟨rfl, fun _ _ => rfl⟩

/-- Claim C8: with an empty registry the run still creates the index file,
consisting of the header, the heading, the opening and closing list markup
with no item between them (`<dl>` immediately followed by `</dl>`), and the
footer; and it touches no other file, so no per-package file is created. -/
theorem c8_empty_registry (licen : String) (g : String → String) (fs : Fs) :
    runScript [] licen g fs idxfn
      = some (idxOpen ++ "" ++ idxClose ++ (footer licen ++ "\n")) ∧
    hasSubB ("<dl>\n</dl>").data
      ((idxOpen ++ "" ++ idxClose ++ (footer licen ++ "\n"))).data = true ∧
    (∀ f, f ≠ idxfn → runScript [] licen g fs f = fs f) := by
  refine ⟨?_, ?_, ?_⟩
  · exact runScript_idx fs (fun e he => absurd he (List.not_mem_nil e))
  · rw [show ((idxOpen ++ "" ++ idxClose ++ (footer licen ++ "\n"))).data
        = (idxOpen ++ "" ++ idxClose).data ++ (footer licen ++ "\n").data from by
      rw [String.data_append]]
    apply hasSubB_ext_right
    decide
  · intro f hf
    exact runScript_other fs hf (fun e he => absurd he (List.not_mem_nil e))

/-- Witness for C8 at a concrete license, oracle and file name. -/
theorem c8_witness :
    runScript [] "MIT" (fun _ => "") emptyFs "doc/xxana.html"
      = emptyFs "doc/xxana.html" :=
  (c8_empty_registry "MIT" (fun _ => "") emptyFs).2.2 "doc/xxana.html" (by decide)

/-- Claim C9 counterexample: the code calls `strip()`, which removes
whitespace from both ends; with captured stderr `" x "` the returned text is
`"x"`, whereas the claimed trailing-only trimming yields `" x"`. -/
theorem c9_counterexample :
    Cmd (fun _ => ⟨"o", " x ", 0⟩) "godoc" false false
      = Except.ok ("o", "x") ∧
    specTrimTrailing " x " = " x" ∧ ("x" : String) ≠ " x" := by
  refine ⟨?_, by decide, by decide⟩
  show Except.ok ("o", pyStrip " x ") = Except.ok ("o", "x")
  rw [show pyStrip " x " = "x" from by decide]

/-- Claim C9 (amended): for every command string and subprocess oracle,
`Cmd` without debug returns the pair of the full captured standard output
and the captured standard error with leading and trailing whitespace
trimmed; it performs no exit-status validation — the result is the same for
every exit status, even a failing one. -/
theorem c9_cmd (spawn : String → ProcOut) (command : String) (verbose : Bool) :
    Cmd spawn command verbose false
      = Except.ok ((spawn command).out, pyStrip (spawn command).err) ∧
    (∀ o e k₁ k₂, Cmd (fun _ => ProcOut.mk o e k₁) command verbose false
        = Cmd (fun _ => ProcOut.mk o e k₂) command verbose false) ∧
    (∃ a b, (spawn command).err.data
        = a ++ (pyStrip (spawn command).err).data ++ b ∧
      (∀ c ∈ a, isWs c = true) ∧ (∀ c ∈ b, isWs c = true) ∧
      (∀ c, (pyStrip (spawn command).err).data.head? = some c →
        isWs c = false) ∧
      (∀ c, (pyStrip (spawn command).err).data.reverse.head? = some c →
        isWs c = false)) := by
  exact ⟨rfl, fun _ _ _ _ => rfl, pyStrip_spec (spawn command).err⟩

/-- Claim C10: calling `Cmd` with `debug = True` raises a `NameError` (line
12 evaluates the undefined name `cmd`) for every command string, oracle and
verbosity, before the subprocess is spawned: the outcome does not depend on
the spawn oracle at all, so the documented debug flag can never complete
successfully. -/
theorem c10_debug (spawn spawn' : String → ProcOut) (command : String)
    (verbose verbose' : Bool) :
    Cmd spawn command verbose true = Except.error PyErr.nameError ∧
    Cmd spawn command verbose true = Cmd spawn' command verbose' true :=
  ⟨rfl, rfl⟩

/-- Occurrences of a newline-free pattern in a concatenation of lines that
each end in a newline, followed by a tail, are the sum of the per-line
occurrences plus the occurrences in the tail. -/
theorem countSub_lines {p : List Char} (hp : p ≠ [])
    (hnl : ('\n' ∈ p) → False) :
    ∀ (ls : List String) (y : List Char),
      (∀ s ∈ ls, endsC '\n' s.data = true) →
      countSub p ((concatAll ls).data ++ y)
        = (ls.map fun s => countSub p s.data).sum + countSub p y := by
  intro ls
  induction ls with
  | nil =>
    intro y _
    show countSub p (("" : String).data ++ y) = _
    simp [List.map_nil, List.sum_nil]
  | cons s ss ih =>
    intro y hend
    have hdata : (concatAll (s :: ss)).data ++ y
        = s.data ++ ((concatAll ss).data ++ y) := by
      show (s ++ concatAll ss).data ++ y = _
      rw [String.data_append, List.append_assoc]
    rw [hdata,
      countSub_append hp (NS_nl _ hnl (hend s (List.mem_cons_self _ _))),
      ih y (fun t ht => hend t (List.mem_cons_of_mem _ ht)),
      List.map_cons, List.sum_cons]
    omega

/-- The character data of the assembled index file, regrouped with the item
block isolated (for per-line counting). -/
theorem idxFileData2 (items licen : String) :
    (idxOpen ++ items ++ idxClose ++ (footer licen ++ "\n")).data
      = idxOpen.data ++ (items.data ++ ((idxClose ++ fPre).data ++
          (licen.data ++ (fPost ++ "\n").data))) := by
  simp [String.data_append, footer, List.append_assoc]

/-- The 25 generated file names are pairwise distinct. -/
theorem pkgs_nodup : (pkgs.map outFile).Nodup := by decide

/-- No generated file name collides with the index file name. -/
theorem pkgs_not_idx : ∀ e ∈ pkgs, outFile e ≠ idxfn := by decide

/-- The opening index markup ends in a newline. -/
theorem idxOpen_ends : endsC '\n' idxOpen.data = true := by decide

/-- Per-entry decidable facts behind the index counting argument: the
entry's item line occurs nowhere in the fixed index markup, exactly once
among the 25 item lines, never straddles into the closing markup, carries
the `<dd>` marker and contains no newline. -/
def c2P (r : String × String) : Bool :=
  (countSub (pkgitem r).data idxOpen.data == 0) &&
  (((pkgs.map fun q => pkgitem q ++ "\n").map fun s =>
      countSub (pkgitem r).data s.data).sum == 1) &&
  (countSub (pkgitem r).data (idxClose ++ fPre).data == 0) &&
  (countSub (pkgitem r).data (fPost ++ "\n").data == 0) &&
  noRSB (pkgitem r).data (fPost ++ "\n").data &&
  hasSubB ("<dd>").data (pkgitem r).data &&
  !(decide ('\n' ∈ (pkgitem r).data)) &&
  !(decide ((pkgitem r).data = []))

theorem c2h0 : c2P ("ana", "analytical solutions") = true := by decide

theorem c2h1 : c2P ("shp", "shape (interpolation) structures and quadrature points") = true := by decide

theorem c2h2 : c2P ("mdl/generic", "generic models (placeholder for parameters set)") = true := by decide

theorem c2h3 : c2P ("mdl/solid", "models for solids") = true := by decide

theorem c2h4 : c2P ("mdl/fluid", "models for fluids (liquid / gas)") = true := by decide

theorem c2h5 : c2P ("mdl/conduct", "models for liquid conductivity within porous media") = true := by decide

theorem c2h6 : c2P ("mdl/retention", "models for liquid retention within porous media") = true := by decide

theorem c2h7 : c2P ("mdl/diffusion", "models for diffusion applications") = true := by decide

theorem c2h8 : c2P ("mdl/thermomech", "models for thermo-mechanical applications") = true := by decide

theorem c2h9 : c2P ("mdl/porous", "models for porous media (TPM-based)") = true := by decide

theorem c2h10 : c2P ("inp", "input data (.sim = simulation, .mat = materials, .msh = meshes)") = true := by decide

theorem c2h11 : c2P ("ele", "finite elements") = true := by decide

theorem c2h12 : c2P ("ele/solid", "elements for solid mechanics") = true := by decide

theorem c2h13 : c2P ("ele/seepage", "elements for seepage problems (with liquid and/or gases)") = true := by decide

theorem c2h14 : c2P ("ele/diffusion", "elements for diffusion(-like) problems") = true := by decide

theorem c2h15 : c2P ("ele/thermomech", "elements for thermo-mechanical applications") = true := by decide

theorem c2h16 : c2P ("ele/porous", "elements for porous media simulations (TPM)") = true := by decide

theorem c2h17 : c2P ("fem", "finite element method (main, domain, solver, ...)") = true := by decide

theorem c2h18 : c2P ("tests", "(unit) tests of complete simulations") = true := by decide

theorem c2h19 : c2P ("tests/solid", "tests of solid mechanics applications") = true := by decide

theorem c2h20 : c2P ("tests/seepage", "tests of seepage problems") = true := by decide

theorem c2h21 : c2P ("tests/diffusion", "tests of diffusion problems") = true := by decide

theorem c2h22 : c2P ("tests/thermomech", "tests of thermo-mechanical applications") = true := by decide

theorem c2h23 : c2P ("tests/porous", "tests of porous media simulations") = true := by decide

theorem c2h24 : c2P ("out", "output routines (post-processing and plotting)") = true := by decide

/-- Every registry entry passes the per-entry index facts. -/
theorem c2all : pkgs.all c2P = true := by
  simp only [pkgs, List.all_cons, List.all_nil, c2h0, c2h1, c2h2, c2h3, c2h4, c2h5, c2h6, c2h7, c2h8, c2h9, c2h10, c2h11, c2h12, c2h13, c2h14, c2h15, c2h16, c2h17, c2h18, c2h19, c2h20, c2h21, c2h22, c2h23, c2h24,
    Bool.true_and]

/-- Claim C2: after a run, the index file contains exactly one index-item
per registry entry, in registry order: its content is exactly the opening
markup, the item lines of the 25 packages in registry order, the closing
markup and the footer; each entry's item string occurs exactly once in the
whole index (the license being free of the item marker `<dd>`); and each
item's link target equals the file name of that entry's generated file,
`"xx" ++ flatName ++ ".html"`. -/
theorem c2_index_items (licen : String) (g : String → String) (fs : Fs)
    (hlic : countSub ("<dd>").data licen.data = 0) :
    runScript pkgs licen g fs idxfn
      = some (idxOpen ++ concatAll (pkgs.map fun e => pkgitem e ++ "\n") ++
          idxClose ++ (footer licen ++ "\n")) ∧
    (∀ e, e ∈ pkgs →
      countSub (pkgitem e).data
        (idxOpen ++ concatAll (pkgs.map fun r => pkgitem r ++ "\n") ++
          idxClose ++ (footer licen ++ "\n")).data = 1) ∧
    (∀ e, e ∈ pkgs →
      hrefTarget (pkgitem e) = some ("xx" ++ flatName e.1 ++ ".html")) := by
  refine ⟨runScript_idx fs pkgs_not_idx, ?_, ?_⟩
  · intro e he
    rw [idxFileData2]
    have hOpenEnds := idxOpen_ends
    have hCloseEnds : endsC '\n' (idxClose ++ fPre).data = true := by decide
    have hend : ∀ s ∈ (pkgs.map fun r => pkgitem r ++ "\n"),
        endsC '\n' s.data = true := by
      intro s hs
      rcases List.mem_map.mp hs with ⟨r, _, rfl⟩
      exact endsC_str_nl _
    have h := List.all_eq_true.mp c2all e he
    simp only [c2P, Bool.and_eq_true, beq_iff_eq, Bool.not_eq_true',
      decide_eq_false_iff_not] at h
    obtain ⟨⟨⟨⟨⟨⟨⟨h0, h1⟩, h2⟩, h3⟩, hRI⟩, hdd⟩, hnl⟩, hne⟩ := h
    have hzero : countSub (pkgitem e).data licen.data = 0 :=
      countSub_zero_mono hdd hlic
    rw [countSub_append hne (NS_nl _ hnl hOpenEnds),
      countSub_lines hne hnl _ _ hend,
      countSub_append hne (NS_nl _ hnl hCloseEnds),
      countSub_append hne (NS_right_nil _ hRI),
      h0, h1, h2, h3, hzero]
  · have hall2 : pkgs.all (fun r =>
        hrefTarget (pkgitem r) == some ("xx" ++ flatName r.1 ++ ".html"))
        = true := by decide
    intro e he
    have h := List.all_eq_true.mp hall2 e he
    exact beq_iff_eq.mp h

/-- Witness for C2 at a concrete license, oracle and registry entry. -/
theorem c2_witness :
    runScript pkgs "MIT" (fun _ => "") emptyFs idxfn
      = some (idxOpen ++ concatAll (pkgs.map fun e => pkgitem e ++ "\n") ++
          idxClose ++ (footer "MIT" ++ "\n")) ∧
    countSub (pkgitem ("ana", "analytical solutions")).data
      (idxOpen ++ concatAll (pkgs.map fun r => pkgitem r ++ "\n") ++
        idxClose ++ (footer "MIT" ++ "\n")).data = 1 ∧
    hrefTarget (pkgitem ("ana", "analytical solutions")) = some "xxana.html" := by
  have h := c2_index_items "MIT" (fun _ => "") emptyFs (by decide)
  exact ⟨h.1, h.2.1 ("ana", "analytical solutions") (by decide),
    h.2.2 ("ana", "analytical solutions") (by decide)⟩

/-- Cheap left-straddle check: no nonempty tail of `x` is a prefix of `p`
at all (stronger than `noLSB`, and linear-time when mismatches are early). -/
def noLSB3 (p : List Char) : List Char → Bool
  | [] => true
  | c :: cs => !(leadsB (c :: cs) p) && noLSB3 p cs

theorem noLSB3_spec {p : List Char} :
    ∀ (x₁ : List Char) {x : List Char}, noLSB3 p x = true → ∀ x₂,
      x = x₁ ++ x₂ → x₂ ≠ [] → leadsB x₂ p = false := by
  intro x₁
  induction x₁ with
  | nil =>
    intro x hx x₂ heq hne
    rw [List.nil_append] at heq
    rw [heq] at hx
    cases x₂ with
    | nil => cases hne rfl
    | cons c cs =>
      simp only [noLSB3, Bool.and_eq_true, Bool.not_eq_true'] at hx
      exact hx.1
  | cons a as ih =>
    intro x hx x₂ heq hne
    subst heq
    have hx' : noLSB3 p (as ++ x₂) = true := by
      simp only [List.cons_append, noLSB3, Bool.and_eq_true] at hx
      exact hx.2
    exact ih hx' x₂ rfl hne

theorem NS_left3 {p x : List Char} (y : List Char) (h : noLSB3 p x = true) :
    NS p x y := by
  intro x₁ x₂ heq hne hlen
  by_contra hc
  have hlead : leadsB p (x₂ ++ y) = true := Bool.of_not_eq_false hc
  rcases leadsB_append_cases hlead with h1 | ⟨h1, _⟩
  · have h2 := leadsB_of_short hlen
    rw [h2] at h1; cases h1
  · rw [noLSB3_spec x₁ h x₂ heq hne] at h1; cases h1

/-- Cheap right-straddle check: every proper nonempty tail of the pattern
(second argument) neither is a prefix of `w` nor has `w` as a prefix. -/
def noRSB3 (w : List Char) : List Char → Bool
  | [] => true
  | _ :: [] => true
  | _ :: (d :: q) =>
    (!(leadsB (d :: q) w) && !(leadsB w (d :: q))) && noRSB3 w (d :: q)

theorem noRSB3_suffix {w : List Char} :
    ∀ (p : List Char), noRSB3 w p = true → ∀ k, 0 < k → k < p.length →
      leadsB (p.drop k) w = false ∧ leadsB w (p.drop k) = false := by
  intro p
  induction p with
  | nil => intro _ k _ hk; simp at hk
  | cons c q ih =>
    intro hp k hk0 hk
    cases q with
    | nil => simp at hk; omega
    | cons d q' =>
      simp only [noRSB3, Bool.and_eq_true, Bool.not_eq_true'] at hp
      rcases hp with ⟨⟨hp1, hp2⟩, hp3⟩
      cases k with
      | zero => omega
      | succ n =>
        show leadsB ((d :: q').drop n) w = false ∧
          leadsB w ((d :: q').drop n) = false
        rcases Nat.eq_zero_or_pos n with h0 | hpos
        · subst h0; exact ⟨hp1, hp2⟩
        · apply ih hp3 n hpos
          simp only [List.length_cons] at hk ⊢
          omega

theorem NS_right3 {p w : List Char} (x t : List Char)
    (h : noRSB3 w p = true) : NS p x (w ++ t) := by
  intro x₁ x₂ heq hne hlen
  by_contra hc
  have hlead : leadsB p (x₂ ++ (w ++ t)) = true := Bool.of_not_eq_false hc
  rcases leadsB_append_cases hlead with h1 | ⟨h1, h2⟩
  · have h3 := leadsB_of_short hlen
    rw [h3] at h1; cases h1
  · have hk0 : 0 < x₂.length := List.length_pos.mpr hne
    rcases noRSB3_suffix p h x₂.length hk0 hlen with ⟨hq1, hq2⟩
    by_cases hfit : (p.drop x₂.length).length ≤ w.length
    · rw [leadsB_append_left w t hfit, hq1] at h2; cases h2
    · have h4 := leadsB_long_split h2 (by omega)
      rw [hq2] at h4; cases h4

theorem NS_right3_nil {p w : List Char} (x : List Char)
    (h : noRSB3 w p = true) : NS p x w := by
  have h2 := NS_right3 (p := p) x [] h
  rwa [List.append_nil] at h2

/-- Five-part occurrence count, taking the no-straddle facts directly. -/
theorem countSub_fileNS {p A u B l C : List Char} (hp : p ≠ [])
    (n1 : NS p A (u ++ (B ++ (l ++ C)))) (n2 : NS p u (B ++ (l ++ C)))
    (n3 : NS p B (l ++ C)) (n4 : NS p l C) :
    countSub p (A ++ (u ++ (B ++ (l ++ C)))) =
      countSub p A + countSub p u + countSub p B + countSub p l
        + countSub p C := by
  rw [countSub_append hp n1, countSub_append hp n2, countSub_append hp n3,
    countSub_append hp n4]
  omega

/-- Per-entry decidable facts behind the block counting argument: the
`sed` placeholder does not occur in the entry's header block, the header
block occurs exactly once in itself and straddles no boundary with the
tool output or the footer. -/
def c3P (r : String × String) : Bool :=
  (countSub sedPat.data (pkgheader r ++ "\n").data == 0) &&
  (countSub (pkgheader r).data (pkgheader r ++ "\n").data == 1) &&
  noLSB3 (pkgheader r).data (pkgheader r ++ "\n").data &&
  noRSB3 fPre.data (pkgheader r).data &&
  noLSB3 (pkgheader r).data fPre.data &&
  noRSB3 (fPost ++ "\n").data (pkgheader r).data &&
  (countSub (pkgheader r).data fPre.data == 0) &&
  (countSub (pkgheader r).data (fPost ++ "\n").data == 0) &&
  !(decide ((pkgheader r).data = []))

theorem c3h0 : c3P ("ana", "analytical solutions") = true := by decide

theorem c3h1 : c3P ("shp", "shape (interpolation) structures and quadrature points") = true := by decide

theorem c3h2 : c3P ("mdl/generic", "generic models (placeholder for parameters set)") = true := by decide

theorem c3h3 : c3P ("mdl/solid", "models for solids") = true := by decide

theorem c3h4 : c3P ("mdl/fluid", "models for fluids (liquid / gas)") = true := by decide

theorem c3h5 : c3P ("mdl/conduct", "models for liquid conductivity within porous media") = true := by decide

theorem c3h6 : c3P ("mdl/retention", "models for liquid retention within porous media") = true := by decide

theorem c3h7 : c3P ("mdl/diffusion", "models for diffusion applications") = true := by decide

theorem c3h8 : c3P ("mdl/thermomech", "models for thermo-mechanical applications") = true := by decide

theorem c3h9 : c3P ("mdl/porous", "models for porous media (TPM-based)") = true := by decide

theorem c3h10 : c3P ("inp", "input data (.sim = simulation, .mat = materials, .msh = meshes)") = true := by decide

theorem c3h11 : c3P ("ele", "finite elements") = true := by decide

theorem c3h12 : c3P ("ele/solid", "elements for solid mechanics") = true := by decide

theorem c3h13 : c3P ("ele/seepage", "elements for seepage problems (with liquid and/or gases)") = true := by decide

theorem c3h14 : c3P ("ele/diffusion", "elements for diffusion(-like) problems") = true := by decide

theorem c3h15 : c3P ("ele/thermomech", "elements for thermo-mechanical applications") = true := by decide

theorem c3h16 : c3P ("ele/porous", "elements for porous media simulations (TPM)") = true := by decide

theorem c3h17 : c3P ("fem", "finite element method (main, domain, solver, ...)") = true := by decide

theorem c3h18 : c3P ("tests", "(unit) tests of complete simulations") = true := by decide

theorem c3h19 : c3P ("tests/solid", "tests of solid mechanics applications") = true := by decide

theorem c3h20 : c3P ("tests/seepage", "tests of seepage problems") = true := by decide

theorem c3h21 : c3P ("tests/diffusion", "tests of diffusion problems") = true := by decide

theorem c3h22 : c3P ("tests/thermomech", "tests of thermo-mechanical applications") = true := by decide

theorem c3h23 : c3P ("tests/porous", "tests of porous media simulations") = true := by decide

theorem c3h24 : c3P ("out", "output routines (post-processing and plotting)") = true := by decide

/-- Every registry entry passes the per-entry block facts. -/
theorem c3all : pkgs.all c3P = true := by
  simp only [pkgs, List.all_cons, List.all_nil, c3h0, c3h1, c3h2, c3h3, c3h4, c3h5, c3h6, c3h7, c3h8, c3h9, c3h10, c3h11, c3h12, c3h13, c3h14, c3h15, c3h16, c3h17, c3h18, c3h19, c3h20, c3h21, c3h22, c3h23, c3h24,
    Bool.true_and]

/-- Claim C3 counterexample: with license text `/src/target` and empty tool
output (which contains neither block, as the claim assumes), the link-fixing
`sed` pass — which runs after the footer write (line 105 after line 101) —
rewrites the placeholder inside the written footer, so the generated file
for the first registry entry contains zero occurrences of the footer block
instead of exactly one. -/
theorem c3_counterexample :
    ∃ c, runScript pkgs "/src/target" (fun _ => "") emptyFs
        (outFile ("ana", "analytical solutions")) = some c ∧
      countSub (footer "/src/target").data c.data = 0 ∧
      hasSubB (footer "/src/target").data c.data = false ∧
      countSub (pkgheader ("ana", "analytical solutions")).data
        (("" : String)).data = 0 ∧
      countSub (footer "/src/target").data (("" : String)).data = 0 := by
  have hW : countSub sedPat.data
      (replaceAll sedPat.data (sedRep "ana").data
        ((((pkgheader ("ana", "analytical solutions") ++ "\n") ++ "") ++
          (footer "/src/target" ++ "\n")).data)) = 0 :=
    @replaceAll_no_pat sedPat.data (sedRep "ana").data (by decide) (by decide)
      (by decide) (by decide) (by decide)
      ((((pkgheader ("ana", "analytical solutions") ++ "\n") ++ "") ++
        (footer "/src/target" ++ "\n")).data)
  have hF : countSub (footer "/src/target").data
      (replaceAll sedPat.data (sedRep "ana").data
        ((((pkgheader ("ana", "analytical solutions") ++ "\n") ++ "") ++
          (footer "/src/target" ++ "\n")).data)) = 0 :=
    countSub_zero_mono (by decide) hW
  refine ⟨_, runScript_pkg emptyFs
    (show (("ana", "analytical solutions") : String × String) ∈ pkgs by decide)
    pkgs_nodup pkgs_not_idx, hF, (countSub_zero_iff _ _).mp hF,
    by decide, by decide⟩

/-- Claim C3 (amended): for every registry entry, after a run in which the
license text and the tool outputs contain no occurrence of the `sed`
placeholder `/src/target`, and neither the tool outputs nor the license
contain the header block, the file `doc/xx<flatName>.html` exists and its
content is exactly headerBlock ++ newline ++ toolOutput ++ footerBlock ++
newline: the header block occurs exactly once, at the very start, preceding
the footer block, which closes the file. -/
theorem c3_blocks (licen : String) (g : String → String) (fs : Fs)
    (hlp : countSub sedPat.data licen.data = 0)
    (hgp : ∀ e, e ∈ pkgs → countSub sedPat.data (g (gcmd e.1)).data = 0)
    (hgh : ∀ e, e ∈ pkgs →
      countSub (pkgheader e).data (g (gcmd e.1)).data = 0)
    (hlh : ∀ e, e ∈ pkgs → countSub (pkgheader e).data licen.data = 0) :
    ∀ e, e ∈ pkgs →
      runScript pkgs licen g fs (outFile e)
        = some (((pkgheader e ++ "\n") ++ g (gcmd e.1)) ++
            (footer licen ++ "\n")) ∧
      countSub (pkgheader e).data
        (((pkgheader e ++ "\n") ++ g (gcmd e.1)) ++
          (footer licen ++ "\n")).data = 1 ∧
      leadsB (pkgheader e).data
        (((pkgheader e ++ "\n") ++ g (gcmd e.1)) ++
          (footer licen ++ "\n")).data = true ∧
      (∃ t, (((pkgheader e ++ "\n") ++ g (gcmd e.1)) ++
          (footer licen ++ "\n")).data
        = t ++ ((footer licen).data ++ ['\n'])) := by
  intro e he
  have h := List.all_eq_true.mp c3all e he
  simp only [c3P, Bool.and_eq_true, beq_iff_eq, Bool.not_eq_true',
    decide_eq_false_iff_not] at h
  obtain ⟨⟨⟨⟨⟨⟨⟨⟨hsA, h1⟩, hLA⟩, hRB⟩, hLB⟩, hRC⟩, hB0⟩, hC0⟩, hne⟩ := h
  refine ⟨?_, ?_, ?_, ?_⟩
  · rw [runScript_pkg fs he pkgs_nodup pkgs_not_idx]
    rw [sed_id e (g (gcmd e.1)) licen hsA (hgp e he) hlp]
  · rw [pkgFileData]
    rw [countSub_fileNS hne (NS_left3 _ hLA) (NS_right3 _ _ hRB)
        (NS_left3 _ hLB) (NS_right3_nil _ hRC),
      h1, hgh e he, hB0, hlh e he, hC0]
  · rw [pkgFileData]
    have hdata : (pkgheader e ++ "\n").data
        = (pkgheader e).data ++ ['\n'] := by
      rw [String.data_append]
    rw [hdata, List.append_assoc]
    exact leadsB_self_append _ _
  · refine ⟨((pkgheader e ++ "\n") ++ g (gcmd e.1)).data, ?_⟩
    rw [String.data_append, String.data_append]
    rfl

/-- Witness for C3 (amended) at a concrete license and tool oracle. -/
theorem c3_witness :
    runScript pkgs "MIT" (fun _ => "BODY\n") emptyFs
        (outFile ("ana", "analytical solutions"))
      = some (((pkgheader ("ana", "analytical solutions") ++ "\n") ++
          (fun _ : String => "BODY\n") (gcmd ("ana", "analytical solutions").1)) ++
          (footer "MIT" ++ "\n")) ∧
    countSub (pkgheader ("ana", "analytical solutions")).data
      (((pkgheader ("ana", "analytical solutions") ++ "\n") ++
        (fun _ : String => "BODY\n") (gcmd ("ana", "analytical solutions").1)) ++
        (footer "MIT" ++ "\n")).data = 1 := by
  have h := c3_blocks "MIT" (fun _ => "BODY\n") emptyFs (by decide)
    (fun e _ => by
      show countSub sedPat.data ("BODY\n" : String).data = 0
      decide)
    (fun e he => ?hg) (fun e he => ?hl)
    ("ana", "analytical solutions") (by decide)
  · exact ⟨h.1, h.2.1⟩
  case hg =>
    have hall : pkgs.all (fun r =>
        countSub (pkgheader r).data ("BODY\n" : String).data == 0) = true := by
      decide
    exact beq_iff_eq.mp (List.all_eq_true.mp hall e he)
  case hl =>
    have hall : pkgs.all (fun r =>
        countSub (pkgheader r).data ("MIT" : String).data == 0) = true := by
      decide
    exact beq_iff_eq.mp (List.all_eq_true.mp hall e he)

/-- The `sed` placeholder does not occur in the `ana` header block. -/
theorem ana_no_sedPat :
    countSub sedPat.data
      (pkgheader ("ana", "analytical solutions") ++ "\n").data = 0 := by decide

/-- Exactly one `<title>` element opener in the `ana` header block. -/
theorem t_title_hdr :
    countSub ("<title>").data
      (pkgheader ("ana", "analytical solutions") ++ "\n").data = 1 := by decide

theorem t_title_pre : countSub ("<title>").data fPre.data = 0 := by decide

theorem t_title_post :
    countSub ("<title>").data (fPost ++ "\n").data = 0 := by decide

/-- The full `ana` title element occurs in the `ana` header block. -/
theorem tag_title :
    hasSubB ("<title>Gofem &ndash; package ana</title>").data
      (pkgheader ("ana", "analytical solutions") ++ "\n").data = true := by
  decide

/-- Exactly one `<h1>` heading opener in the `ana` header block. -/
theorem t_h1_hdr :
    countSub ("<h1>").data
      (pkgheader ("ana", "analytical solutions") ++ "\n").data = 1 := by decide

theorem t_h1_pre : countSub ("<h1>").data fPre.data = 0 := by decide

theorem t_h1_post : countSub ("<h1>").data (fPost ++ "\n").data = 0 := by decide

/-- The full `ana` heading occurs in the `ana` header block. -/
theorem tag_h1 :
    hasSubB ("<h1>Gofem &ndash; <b>ana</b> &ndash; analytical solutions</h1>").data
      (pkgheader ("ana", "analytical solutions") ++ "\n").data = true := by
  decide

/-- The single-entry index body ends in a newline before the license. -/
theorem idx1_ends :
    endsC '\n' (idxOpen ++ concatAll ([("ana", "analytical solutions")].map
      fun e => pkgitem e ++ "\n") ++ idxClose ++ fPre).data = true := by decide

/-- Exactly one `<dd>` marker in the single-entry index body. -/
theorem dd_w :
    countSub ("<dd>").data
      (idxOpen ++ concatAll ([("ana", "analytical solutions")].map
        fun e => pkgitem e ++ "\n") ++ idxClose ++ fPre).data = 1 := by decide

theorem dd_v : countSub ("<dd>").data (fPost ++ "\n").data = 0 := by decide

/-- Exactly one occurrence of the `ana` item in the single-entry index
body. -/
theorem item_w :
    countSub (pkgitem ("ana", "analytical solutions")).data
      (idxOpen ++ concatAll ([("ana", "analytical solutions")].map
        fun e => pkgitem e ++ "\n") ++ idxClose ++ fPre).data = 1 := by decide

theorem item_v :
    countSub (pkgitem ("ana", "analytical solutions")).data
      (fPost ++ "\n").data = 0 := by decide

theorem item_rsb :
    noRSB (pkgitem ("ana", "analytical solutions")).data
      (fPost ++ "\n").data = true := by decide

/-- Claim C1 counterexample: for the registry `[("ana","analytical
solutions")]` the per-package file created is `doc/xxana.html` — `flatName
"ana" = "ana"`, no hyphen is inserted after `xx` — and no file named
`doc/xx-ana.html` exists after the run. -/
theorem c1_counterexample :
    runScript [("ana", "analytical solutions")] "MIT" (fun _ => "BODY\n")
      emptyFs "doc/xx-ana.html" = none ∧
    outFile ("ana", "analytical solutions") = "doc/xxana.html" ∧
    "doc/xxana.html" ≠ "doc/xx-ana.html" := by
  refine ⟨?_, by decide, by decide⟩
  exact @runScript_other [("ana", "analytical solutions")] "MIT"
    (fun _ => "BODY\n") emptyFs "doc/xx-ana.html" (by decide) (by decide)

/-- Claim C1 (amended): running the build with registry `[("ana","analytical
solutions")]` on an empty file system — with license and tool output free of
`/src/target`, `<h1>`, `<title>` and the license free of `<dd>` — creates
exactly one per-package file, named `doc/xxana.html`; that file contains
exactly one title element, whose text `Gofem &ndash; package ana` contains
`ana`, and exactly one `<h1>` heading, which contains both `ana` and
`analytical solutions`; and `doc/index.html` contains exactly one list item,
which links to `xxana.html` and whose visible text is
`ana: analytical solutions`. -/
theorem c1_single_run (licen : String) (g : String → String)
    (h1 : countSub sedPat.data licen.data = 0)
    (h2 : countSub sedPat.data (g (gcmd "ana")).data = 0)
    (h3 : countSub ("<h1>").data licen.data = 0)
    (h4 : countSub ("<h1>").data (g (gcmd "ana")).data = 0)
    (h5 : countSub ("<title>").data licen.data = 0)
    (h6 : countSub ("<title>").data (g (gcmd "ana")).data = 0)
    (h7 : countSub ("<dd>").data licen.data = 0) :
    (∀ f, f ≠ idxfn →
      ((runScript [("ana", "analytical solutions")] licen g emptyFs f).isSome
        ↔ f = "doc/xxana.html")) ∧
    runScript [("ana", "analytical solutions")] licen g emptyFs
        "doc/xxana.html"
      = some (((pkgheader ("ana", "analytical solutions") ++ "\n") ++
          g (gcmd "ana")) ++ (footer licen ++ "\n")) ∧
    countSub ("<title>").data
      (((pkgheader ("ana", "analytical solutions") ++ "\n") ++
        g (gcmd "ana")) ++ (footer licen ++ "\n")).data = 1 ∧
    hasSubB ("<title>Gofem &ndash; package ana</title>").data
      (((pkgheader ("ana", "analytical solutions") ++ "\n") ++
        g (gcmd "ana")) ++ (footer licen ++ "\n")).data = true ∧
    hasSubB ("ana").data ("Gofem &ndash; package ana").data = true ∧
    countSub ("<h1>").data
      (((pkgheader ("ana", "analytical solutions") ++ "\n") ++
        g (gcmd "ana")) ++ (footer licen ++ "\n")).data = 1 ∧
    hasSubB ("<h1>Gofem &ndash; <b>ana</b> &ndash; analytical solutions</h1>").data
      (((pkgheader ("ana", "analytical solutions") ++ "\n") ++
        g (gcmd "ana")) ++ (footer licen ++ "\n")).data = true ∧
    hasSubB ("ana").data
      ("<h1>Gofem &ndash; <b>ana</b> &ndash; analytical solutions</h1>").data
      = true ∧
    hasSubB ("analytical solutions").data
      ("<h1>Gofem &ndash; <b>ana</b> &ndash; analytical solutions</h1>").data
      = true ∧
    runScript [("ana", "analytical solutions")] licen g emptyFs idxfn
      = some (idxOpen ++
          concatAll ([("ana", "analytical solutions")].map
            fun e => pkgitem e ++ "\n") ++
          idxClose ++ (footer licen ++ "\n")) ∧
    countSub ("<dd>").data
      (idxOpen ++ concatAll ([("ana", "analytical solutions")].map
          fun e => pkgitem e ++ "\n") ++
        idxClose ++ (footer licen ++ "\n")).data = 1 ∧
    countSub (pkgitem ("ana", "analytical solutions")).data
      (idxOpen ++ concatAll ([("ana", "analytical solutions")].map
          fun e => pkgitem e ++ "\n") ++
        idxClose ++ (footer licen ++ "\n")).data = 1 ∧
    hrefTarget (pkgitem ("ana", "analytical solutions")) = some "xxana.html" ∧
    stripTags (pkgitem ("ana", "analytical solutions")).data false
      = ("ana: analytical solutions").data := by
  have hmem : (("ana", "analytical solutions") : String × String)
      ∈ [(("ana", "analytical solutions") : String × String)] :=
    List.mem_cons_self _ _
  have hnd : ([(("ana", "analytical solutions") : String × String)].map
      outFile).Nodup := by decide
  have hidx : ∀ e' ∈ [(("ana", "analytical solutions") : String × String)],
      outFile e' ≠ idxfn := by decide
  have hcast : ("doc/xxana.html" : String)
      = outFile ("ana", "analytical solutions") := by decide
  have hcontent : runScript [("ana", "analytical solutions")] licen g emptyFs
      "doc/xxana.html"
      = some (((pkgheader ("ana", "analytical solutions") ++ "\n") ++
          g (gcmd "ana")) ++ (footer licen ++ "\n")) := by
    rw [hcast, runScript_pkg emptyFs hmem hnd hidx,
      sed_id ("ana", "analytical solutions") _ licen ana_no_sedPat h2 h1]
  refine ⟨?_, hcontent, ?_, ?_, by decide, ?_, ?_, by decide, by decide,
    runScript_idx emptyFs hidx, ?_, ?_, by decide, by decide⟩
  · intro f hf
    constructor
    · intro hsome
      by_contra hne
      rw [runScript_other emptyFs hf
        (fun e he => by
          rw [List.mem_singleton.mp he]
          exact fun heq => hne (heq.trans (by decide)))] at hsome
      cases hsome
    · intro hfe
      subst hfe
      rw [hcontent]
      rfl
  · rw [pkgFileData]
    have ht := countSub_file (p := ("<title>").data)
      (A := (pkgheader ("ana", "analytical solutions") ++ "\n").data)
      (u := (g (gcmd "ana")).data) (B := fPre.data) (l := licen.data)
      (C := (fPost ++ "\n").data)
      (by decide) (by decide) (endsC_str_nl _) (by decide) (by decide)
      (by decide)
    rw [ht, h6, h5, t_title_hdr, t_title_pre, t_title_post]
  · rw [pkgFileData]
    exact hasSubB_ext_right _ tag_title
  · rw [pkgFileData]
    have hh := countSub_file (p := ("<h1>").data)
      (A := (pkgheader ("ana", "analytical solutions") ++ "\n").data)
      (u := (g (gcmd "ana")).data) (B := fPre.data) (l := licen.data)
      (C := (fPost ++ "\n").data)
      (by decide) (by decide) (endsC_str_nl _) (by decide) (by decide)
      (by decide)
    rw [hh, h4, h3, t_h1_hdr, t_h1_pre, t_h1_post]
  · rw [pkgFileData]
    exact hasSubB_ext_right _ tag_h1
  · rw [idxFileData]
    have hd := countSub_file3 (p := ("<dd>").data)
      (w := (idxOpen ++ concatAll ([("ana", "analytical solutions")].map
          fun e => pkgitem e ++ "\n") ++ idxClose ++ fPre).data)
      (l := licen.data) (v := (fPost ++ "\n").data)
      (by decide) (by decide) idx1_ends (by decide)
    rw [hd, h7, dd_w, dd_v]
  · rw [idxFileData]
    have hd := countSub_file3
      (p := (pkgitem ("ana", "analytical solutions")).data)
      (w := (idxOpen ++ concatAll ([("ana", "analytical solutions")].map
          fun e => pkgitem e ++ "\n") ++ idxClose ++ fPre).data)
      (l := licen.data) (v := (fPost ++ "\n").data)
      (by decide) (by decide) idx1_ends item_rsb
    rw [hd, countSub_zero_mono (by decide) h7, item_w, item_v]

/-- Witness for C1 (amended) at a concrete license and tool output. -/
theorem c1_witness :
    ((runScript [("ana", "analytical solutions")] "MIT" (fun _ => "BODY\n")
        emptyFs "doc/xxana.html").isSome ↔
      ("doc/xxana.html" : String) = "doc/xxana.html") ∧
    hrefTarget (pkgitem ("ana", "analytical solutions")) = some "xxana.html" := by
  have h := c1_single_run "MIT" (fun _ => "BODY\n") (by decide)
    (by decide) (by decide) (by decide) (by decide) (by decide) (by decide)
  exact ⟨h.1 "doc/xxana.html" (by decide), h.2.2.2.2.2.2.2.2.2.2.2.2.1⟩

end Xgendoc
